import Mathlib

/-!
# SecretBinding controller (pkg/controllermanager/controller/secretbinding)

A shallow embedding of `secretbinding_control.go`.  The Kubernetes objects are
records, the object store and the log of outgoing calls are threaded explicitly
through every function, a Go `error` is an `Option Error` (`none` is `nil`) and a
Go `(value, error)` pair is an `Except Error value`.  Logging has no observable
effect in the model and is left out.
-/

namespace SecretBindingControl

/-! ## Errors -/

/-- Go `error` values, classified the way the controller inspects them: the API
status reasons `NotFound` and `Conflict`, and every other error with its text. -/
inductive Error where
  | notFound : Error
  | conflict : Error
  | other (msg : String) : Error
deriving DecidableEq, Repr

/-- `apierrors.IsNotFound(err)`; false on `nil`. -/
def apierrors.IsNotFound : Option Error → Bool
  | some Error.notFound => true
  | _ => false

/-- `client.IgnoreNotFound(err)`: `nil` for a NotFound error, `err` otherwise. -/
def client.IgnoreNotFound (err : Option Error) : Option Error :=
  if apierrors.IsNotFound err then none else err

/-- `errors.New(text)`. -/
def errors.New (text : String) : Error := Error.other text

/-! ## Objects -/

/-- `corev1.SecretReference`. -/
structure SecretReference where
  Namespace : String
  Name : String
deriving DecidableEq, Repr

/-- `gardencorev1alpha1.SecretBinding`: the metadata fields the controller reads
and the reference to the Secret. -/
structure SecretBinding where
  Namespace : String
  Name : String
  DeletionTimestamp : Option Nat
  Finalizers : List String
  SecretRef : SecretReference
deriving DecidableEq, Repr

/-- `corev1.Secret`: identity and finalizers. -/
structure Secret where
  Namespace : String
  Name : String
  Finalizers : List String
deriving DecidableEq, Repr

/-- An object handed to the generic client (`kutil.Object`). -/
inductive Object where
  | secretBinding (b : SecretBinding) : Object
  | secret (s : Secret) : Object
deriving DecidableEq, Repr

/-- `obj.GetFinalizers()`. -/
def Object.GetFinalizers : Object → List String
  | Object.secretBinding b => b.Finalizers
  | Object.secret s => s.Finalizers

/-- `obj.SetFinalizers(finalizers)`. -/
def Object.SetFinalizers : Object → List String → Object
  | Object.secretBinding b, fs => Object.secretBinding { b with Finalizers := fs }
  | Object.secret s, fs => Object.secret { s with Finalizers := fs }

/-! ## `k8s.io/apimachinery/pkg/util/sets`

A `sets.String` is kept as a duplicate-free list.  Go leaves the order of
`UnsortedList` unspecified; the theorems below only speak about membership. -/

/-- `sets.NewString(items...)`. -/
def sets.NewString (items : List String) : List String := items.dedup

/-- `s.Has(item)`. -/
def sets.Has (s : List String) (item : String) : Bool := decide (item ∈ s)

/-- `s.Delete(item)`. -/
def sets.Delete (s : List String) (item : String) : List String :=
  s.filter (fun x => decide (x ≠ item))

/-- `s.Insert(item)`. -/
def sets.Insert (s : List String) (item : String) : List String :=
  if item ∈ s then s else s ++ [item]

/-- `s.UnsortedList()`. -/
def sets.UnsortedList (s : List String) : List String := s

/-! ## `k8s.io/client-go/tools/cache` keys -/

/-- `strings.Split(s, "/")` on the characters of `s`. -/
def splitSlash : List Char → List (List Char)
  | [] => [[]]
  | c :: cs =>
    match splitSlash cs with
    | [] => [[c]]
    | p :: ps => if c = '/' then [] :: p :: ps else (c :: p) :: ps

/-- `cache.MetaNamespaceKeyFunc(obj)` for a SecretBinding: `namespace/name`, or the
name alone when the namespace is empty.  The meta accessor cannot fail on a
SecretBinding. -/
def cache.MetaNamespaceKeyFunc (obj : SecretBinding) : Except Error String :=
  if obj.Namespace.length > 0 then
    Except.ok (obj.Namespace ++ "/" ++ obj.Name)
  else
    Except.ok obj.Name

/-- `cache.SplitMetaNamespaceKey(key)`. -/
def cache.SplitMetaNamespaceKey (key : String) : Except Error (String × String) :=
  match (splitSlash key.data).map String.mk with
  | [name] => Except.ok ("", name)
  | [ns, name] => Except.ok (ns, name)
  | _ => Except.error (Error.other ("unexpected key format: " ++ key))

/-! ## Work queue (`workqueue.RateLimitingInterface`) -/

/-- `time.Duration`, in nanoseconds. -/
abbrev Duration := Int

/-- `time.Minute`. -/
def time.Minute : Duration := 60 * 1000000000

/-- The queue of the controller: the pending keys, and the keys waiting for a
delay to elapse before they are added. -/
structure WorkQueue where
  queue : List String
  waiting : List (String × Duration)
deriving DecidableEq, Repr

/-- `q.Add(item)`: pending keys are deduplicated. -/
def WorkQueue.Add (q : WorkQueue) (item : String) : WorkQueue :=
  if item ∈ q.queue then q else { q with queue := q.queue ++ [item] }

/-- `q.AddAfter(item, duration)`: an immediate add for a non-positive duration,
otherwise the item waits for `duration`. -/
def WorkQueue.AddAfter (q : WorkQueue) (item : String) (duration : Duration) : WorkQueue :=
  if duration ≤ 0 then q.Add item else { q with waiting := q.waiting ++ [(item, duration)] }

/-! ## Object store, outgoing calls -/

/-- The objects held by the cluster-state store. -/
structure Store where
  secretBindings : List SecretBinding
  secrets : List Secret
deriving DecidableEq, Repr

/-- The SecretBinding stored under `ns/name`. -/
def Store.getSecretBinding (st : Store) (ns name : String) : Option SecretBinding :=
  st.secretBindings.find? (fun b => b.Namespace == ns && b.Name == name)

/-- The Secret stored under `ns/name`. -/
def Store.getSecret (st : Store) (ns name : String) : Option Secret :=
  st.secrets.find? (fun s => s.Namespace == ns && s.Name == name)

/-- Overwrite the stored SecretBinding that has the identity of `b`. -/
def Store.putSecretBinding (st : Store) (b : SecretBinding) : Store :=
  { st with secretBindings := st.secretBindings.map (fun x =>
      if x.Namespace == b.Namespace && x.Name == b.Name then b else x) }

/-- Overwrite the stored Secret that has the identity of `s`. -/
def Store.putSecret (st : Store) (s : Secret) : Store :=
  { st with secrets := st.secrets.map (fun x =>
      if x.Namespace == s.Namespace && x.Name == s.Name then s else x) }

/-- The calls a reconciliation sends out, in the order they are made. -/
inductive Call where
  | update (obj : Object) : Call
  | event (obj : SecretBinding) (eventtype reason message : String) : Call
  | determineShootAssociations (obj : SecretBinding) : Call
deriving DecidableEq, Repr

/-- The world a reconciliation runs in: the store and the log of calls made. -/
structure World where
  store : Store
  calls : List Call
deriving DecidableEq, Repr

/-- Append a call to the log. -/
def World.record (w : World) (c : Call) : World :=
  { w with calls := w.calls ++ [c] }

/-- The calls logged in `w2` after the ones already logged in `w`. -/
def World.callsSince (w2 w : World) : List Call :=
  w2.calls.drop w.calls.length

/-- What lies outside `secretbinding_control.go`: the constants of
`gardencorev1alpha1` and `v1alpha1constants`, the Dependency Resolver
`controllerutils.DetermineShootAssociations` (its answer for a SecretBinding), and
the failures the listers and the API server may answer with instead of
serving a request. -/
structure Env where
  GardenerName : String
  ExternalGardenerName : String
  EventResourceReferenced : String
  DetermineShootAssociations : SecretBinding → Except Error (List String)
  secretBindingListerFault : Option Error
  secretListerFault : Option Error
  updateSecretBindingFault : Option Error
  updateSecretFault : Option Error

/-- `corev1.EventTypeNormal`. -/
def corev1.EventTypeNormal : String := "Normal"

/-- `c.secretBindingLister.SecretBindings(namespace).Get(name)`.  The lister reads the
store the updates are written to: the injected failure if there is one, NotFound
when nothing is stored under `ns/name`. -/
def secretBindingLister (env : Env) (st : Store) (ns name : String) :
    Except Error SecretBinding :=
  match env.secretBindingListerFault with
  | some err => Except.error err
  | none =>
    match st.getSecretBinding ns name with
    | some b => Except.ok b
    | none => Except.error Error.notFound

/-- `c.secretLister.Secrets(namespace).Get(name)`, read from the same store. -/
def secretLister (env : Env) (st : Store) (ns name : String) : Except Error Secret :=
  match env.secretListerFault with
  | some err => Except.error err
  | none =>
    match st.getSecret ns name with
    | some s => Except.ok s
    | none => Except.error Error.notFound

/-- The answer of the API server to an update of `obj`: the injected failure if
there is one, NotFound when no object with that identity is stored, success
otherwise. -/
def updateResult (env : Env) (st : Store) : Object → Option Error
  | Object.secretBinding b =>
    match env.updateSecretBindingFault with
    | some err => some err
    | none => if (st.getSecretBinding b.Namespace b.Name).isSome then none else some Error.notFound
  | Object.secret s =>
    match env.updateSecretFault with
    | some err => some err
    | none => if (st.getSecret s.Namespace s.Name).isSome then none else some Error.notFound

/-- The store after an acknowledged update of `obj`. -/
def Store.put (st : Store) : Object → Store
  | Object.secretBinding b => st.putSecretBinding b
  | Object.secret s => st.putSecret s

/-- `Update(ctx, obj)` of the garden client (and `SecretBindings(ns).Update(obj)` of
the typed client set): the call is logged, and the store takes the object only
when the API server acknowledges the update. -/
def Update (env : Env) (obj : Object) (w : World) : Option Error × World :=
  match updateResult env w.store obj with
  | some err => (some err, w.record (Call.update obj))
  | none => (none, { store := w.store.put obj, calls := w.calls ++ [Call.update obj] })

/-- Modelled from the spec: `controllerutils.EnsureFinalizer`, which is not among the
sources.  "Ensure the controller's finalizer token is present (idempotent add;
no-op if already present; one update call otherwise)"; a failed update is
propagated. -/
def controllerutils.EnsureFinalizer (env : Env) (obj : Object) (finalizer : String)
    (w : World) : Option Error × World :=
  if sets.Has (sets.NewString obj.GetFinalizers) finalizer then
    (none, w)
  else
    Update env (obj.SetFinalizers
      (sets.UnsortedList (sets.Insert (sets.NewString obj.GetFinalizers) finalizer))) w

/-- `fmt.Sprintf("%v", shoots)` for a `[]string`. -/
def formatStrings (shoots : List String) : String :=
  "[" ++ " ".intercalate shoots ++ "]"

/-! ## The control logic -/

/-- `(c *defaultControl) ReconcileSecretBinding(obj, key)`.  The removal of the
finalizer from the SecretBinding (source lines 153-161) is bound to a local function
first, since both the found and the NotFound branch of the Secret step continue
with it. -/
def ReconcileSecretBinding (env : Env) (obj : SecretBinding) (_key : String) (w : World) :
    Option Error × World :=
  match cache.MetaNamespaceKeyFunc obj with
  | Except.error err => (some err, w)
  | Except.ok _ =>
    let secretBinding := obj
    if secretBinding.DeletionTimestamp ≠ none then
      if !(sets.Has (sets.NewString secretBinding.Finalizers) env.GardenerName) then
        (none, w)
      else
        let w := w.record (Call.determineShootAssociations secretBinding)
        match env.DetermineShootAssociations secretBinding with
        | Except.error err => (some err, w)
        | Except.ok associatedShoots =>
          if associatedShoots.length = 0 then
            -- Remove finalizer from SecretBinding
            let removeFromSecretBinding := fun (w : World) =>
              let secretBindingFinalizers :=
                sets.Delete (sets.NewString secretBinding.Finalizers) env.GardenerName
              let secretBinding :=
                { secretBinding with Finalizers := sets.UnsortedList secretBindingFinalizers }
              let r := Update env (Object.secretBinding secretBinding) w
              if client.IgnoreNotFound r.1 ≠ none then (r.1, r.2) else (none, r.2)
            -- Remove finalizer from referenced secret
            match secretLister env w.store secretBinding.SecretRef.Namespace
                secretBinding.SecretRef.Name with
            | Except.ok secret =>
              let secretFinalizers :=
                sets.Delete (sets.NewString secret.Finalizers) env.ExternalGardenerName
              let secret := { secret with Finalizers := sets.UnsortedList secretFinalizers }
              let r := Update env (Object.secret secret) w
              if client.IgnoreNotFound r.1 ≠ none then (r.1, r.2)
              else removeFromSecretBinding r.2
            | Except.error err =>
              if !(apierrors.IsNotFound (some err)) then (some err, w)
              else removeFromSecretBinding w
          else
            let message :=
              "Can't delete SecretBinding, because the following Shoots are still referencing it: "
                ++ formatStrings associatedShoots
            let w := w.record (Call.event secretBinding corev1.EventTypeNormal
              env.EventResourceReferenced message)
            (some (errors.New "SecretBinding still has references"), w)
    else
      let r := controllerutils.EnsureFinalizer env (Object.secretBinding secretBinding)
        env.GardenerName w
      if r.1 ≠ none then (r.1, r.2)
      else
        let w := r.2
        -- Add the Gardener finalizer to the referenced SecretBinding secret
        match secretLister env w.store secretBinding.SecretRef.Namespace
            secretBinding.SecretRef.Name with
        | Except.error err => (some err, w)
        | Except.ok secret =>
          let r := controllerutils.EnsureFinalizer env (Object.secret secret)
            env.ExternalGardenerName w
          if r.1 ≠ none then (r.1, r.2) else (none, r.2)

/-- `ControlInterface`: the control logic the controller is built with. -/
structure ControlInterface where
  ReconcileSecretBinding : SecretBinding → String → World → Option Error × World

/-- `NewDefaultControl(...)`. -/
def NewDefaultControl (env : Env) : ControlInterface :=
  { ReconcileSecretBinding := ReconcileSecretBinding env }

/-- The state of the `Controller` that `reconcileSecretBindingKey` touches: the
world behind its listers and control, and `secretBindingQueue`. -/
structure Controller where
  world : World
  secretBindingQueue : WorkQueue
deriving DecidableEq, Repr

/-- `(c *Controller) reconcileSecretBindingKey(key)`. -/
def reconcileSecretBindingKey (env : Env) (control : ControlInterface) (key : String)
    (c : Controller) : Option Error × Controller :=
  match cache.SplitMetaNamespaceKey key with
  | Except.error err => (some err, c)
  | Except.ok (namespace_, name) =>
    match secretBindingLister env c.world.store namespace_ name with
    | Except.error err =>
      if apierrors.IsNotFound (some err) then (none, c) else (some err, c)
    | Except.ok secretBinding =>
      let r := control.ReconcileSecretBinding secretBinding key c.world
      if r.1 ≠ none then
        (none, { world := r.2,
                 secretBindingQueue := c.secretBindingQueue.AddAfter key time.Minute })
      else
        (none, { c with world := r.2 })

/-! ## Example data -/

/-- An environment without failures in which no Shoot references any binding. -/
def exEnv : Env :=
  { GardenerName := "gardener"
    ExternalGardenerName := "gardener.cloud/gardener"
    EventResourceReferenced := "ReferencedResource"
    DetermineShootAssociations := fun _ => Except.ok []
    secretBindingListerFault := none
    secretListerFault := none
    updateSecretBindingFault := none
    updateSecretFault := none }

/-- A Secret protected by the external finalizer and by a foreign one. -/
def exSecret : Secret :=
  { Namespace := "garden", Name := "s", Finalizers := ["gardener.cloud/gardener", "other"] }

/-- A SecretBinding under deletion that still holds the controller's finalizer. -/
def exDeleting : SecretBinding :=
  { Namespace := "garden", Name := "b1", DeletionTimestamp := some 1,
    Finalizers := ["gardener", "foreign"],
    SecretRef := { Namespace := "garden", Name := "s" } }

/-- A live SecretBinding referencing the same Secret. -/
def exLive : SecretBinding :=
  { Namespace := "garden", Name := "b2", DeletionTimestamp := none,
    Finalizers := ["gardener"],
    SecretRef := { Namespace := "garden", Name := "s" } }

/-- A store with both bindings and the Secret, and no call logged yet. -/
def exWorld : World :=
  { store := { secretBindings := [exDeleting, exLive], secrets := [exSecret] }, calls := [] }


/-- The environment of `exEnv` with one Shoot still referencing every binding. -/
def exEnvBlocked : Env :=
  { exEnv with DetermineShootAssociations := fun _ => Except.ok ["garden/shoot1"] }

/-- The environment of `exEnv` in which updates of a SecretBinding meet a conflict. -/
def exEnvConflict : Env :=
  { exEnv with updateSecretBindingFault := some Error.conflict }

/-- The environment of `exEnv` in which the SecretBinding lister is unreachable. -/
def exEnvListerDown : Env :=
  { exEnv with secretBindingListerFault := some (Error.other "connection refused") }

/-- A fresh SecretBinding, without finalizers, whose Secret does not exist. -/
def exDangling : SecretBinding :=
  { Namespace := "garden", Name := "b3", DeletionTimestamp := none,
    Finalizers := [],
    SecretRef := { Namespace := "garden", Name := "missing" } }

/-- A fresh SecretBinding, without finalizers, referencing a Secret without finalizers. -/
def exFresh : SecretBinding :=
  { Namespace := "garden", Name := "b4", DeletionTimestamp := none,
    Finalizers := [],
    SecretRef := { Namespace := "garden", Name := "plain" } }

/-- A Secret without finalizers. -/
def exPlain : Secret :=
  { Namespace := "garden", Name := "plain", Finalizers := [] }

/-- A store holding the fresh bindings and the unprotected Secret. -/
def exWorldFresh : World :=
  { store := { secretBindings := [exDangling, exFresh], secrets := [exPlain] },
    calls := [] }

/-- A controller over `exWorld` with an empty queue. -/
def exController : Controller :=
  { world := exWorld, secretBindingQueue := { queue := [], waiting := [] } }

/-- A Secret that does not carry the external finalizer. -/
def exSecretBare : Secret :=
  { Namespace := "garden", Name := "s", Finalizers := ["other"] }

/-- The store of `exWorld` with the Secret already stripped of the external
finalizer. -/
def exWorldBare : World :=
  { store := { secretBindings := [exDeleting, exLive], secrets := [exSecretBare] },
    calls := [] }

/-! ## Event handlers -/

/-- A value handed to an event handler as `interface{}`: a SecretBinding, a
`cache.ExplicitKey`, the tombstone `cache.DeletedFinalStateUnknown` of a delete
notification, another object with object metadata, or a value without any. -/
inductive Interface where
  | secretBinding (b : SecretBinding) : Interface
  | explicitKey (key : String) : Interface
  | deletedFinalStateUnknown (Key : String) (Obj : Interface) : Interface
  | object (Namespace Name : String) : Interface
  | noMeta : Interface
deriving DecidableEq, Repr

/-- `meta.Accessor(obj)`: the namespace and name of a value that has object
metadata. -/
def meta.Accessor : Interface → Except Error (String × String)
  | Interface.secretBinding b => Except.ok (b.Namespace, b.Name)
  | Interface.object ns name => Except.ok (ns, name)
  | _ => Except.error (errors.New "object does not implement the Object interfaces")

/-- `cache.MetaNamespaceKeyFunc(obj)` on an arbitrary `interface{}` value; on a
SecretBinding it is `cache.MetaNamespaceKeyFunc` above. -/
def cache.MetaNamespaceKeyFuncAny (obj : Interface) : Except Error String :=
  match obj with
  | Interface.explicitKey key => Except.ok key
  | _ =>
    match meta.Accessor obj with
    | Except.error _ => Except.error (errors.New "object has no meta")
    | Except.ok (ns, name) =>
      if ns.length > 0 then Except.ok (ns ++ "/" ++ name) else Except.ok name

/-- `cache.DeletionHandlingMetaNamespaceKeyFunc(obj)`: the key kept in a tombstone,
otherwise the key of the object. -/
def cache.DeletionHandlingMetaNamespaceKeyFunc (obj : Interface) : Except Error String :=
  match obj with
  | Interface.deletedFinalStateUnknown key _ => Except.ok key
  | _ => cache.MetaNamespaceKeyFuncAny obj

/-- `(c *Controller) secretBindingAdd(obj)`. -/
def secretBindingAdd (obj : Interface) (c : Controller) : Controller :=
  match cache.MetaNamespaceKeyFuncAny obj with
  | Except.error _ => c
  | Except.ok key => { c with secretBindingQueue := c.secretBindingQueue.Add key }

/-- `(c *Controller) secretBindingUpdate(oldObj, newObj)`. -/
def secretBindingUpdate (_oldObj newObj : Interface) (c : Controller) : Controller :=
  secretBindingAdd newObj c

/-- `(c *Controller) secretBindingDelete(obj)`. -/
def secretBindingDelete (obj : Interface) (c : Controller) : Controller :=
  match cache.DeletionHandlingMetaNamespaceKeyFunc obj with
  | Except.error _ => c
  | Except.ok key => { c with secretBindingQueue := c.secretBindingQueue.Add key }

/-! ## Settled bindings -/

/-- The states in which a reconciliation of the stored SecretBinding `b` has
nothing to write: `b` is released; or its deletion is blocked (the Dependency
Resolver does not return an empty set); or its deletion is accepted but the
Secret cannot be looked up; or `b` is live with the controller's finalizer while
its Secret cannot be looked up; or `b` is live and both finalizers are in place. -/
def Settled (env : Env) (st : Store) (b : SecretBinding) : Prop :=
  (b.DeletionTimestamp ≠ none ∧ env.GardenerName ∉ b.Finalizers) ∨
  (b.DeletionTimestamp ≠ none ∧ env.GardenerName ∈ b.Finalizers ∧
    env.DetermineShootAssociations b ≠ Except.ok []) ∨
  (b.DeletionTimestamp ≠ none ∧ env.GardenerName ∈ b.Finalizers ∧
    ∃ err, secretLister env st b.SecretRef.Namespace b.SecretRef.Name = Except.error err ∧
      err ≠ Error.notFound) ∨
  (b.DeletionTimestamp = none ∧ env.GardenerName ∈ b.Finalizers ∧
    ∃ err, secretLister env st b.SecretRef.Namespace b.SecretRef.Name = Except.error err) ∨
  (b.DeletionTimestamp = none ∧ env.GardenerName ∈ b.Finalizers ∧
    ∃ s, secretLister env st b.SecretRef.Namespace b.SecretRef.Name = Except.ok s ∧
      env.ExternalGardenerName ∈ s.Finalizers)

/-- A controller over `exWorldFresh` with an empty queue. -/
def exControllerFresh : Controller :=
  { world := exWorldFresh, secretBindingQueue := { queue := [], waiting := [] } }

/-- The SecretBinding `b` is `obj` with `token` taken out of its finalizers and
nothing else changed: what the update that removes the finalizer writes. -/
def StripsFinalizer (obj : SecretBinding) (token : String) (b : SecretBinding) : Prop :=
  b.Namespace = obj.Namespace ∧ b.Name = obj.Name ∧
  b.DeletionTimestamp = obj.DeletionTimestamp ∧ b.SecretRef = obj.SecretRef ∧
  ∀ t, t ∈ b.Finalizers ↔ t ∈ obj.Finalizers ∧ t ≠ token

/-- The environment of `exEnv` in which updates of a Secret meet a conflict. -/
def exEnvSecretConflict : Env :=
  { exEnv with updateSecretFault := some Error.conflict }

/-! ## Auxiliary facts -/

theorem metaNamespaceKeyFunc_ok (obj : SecretBinding) :
    ∃ k, cache.MetaNamespaceKeyFunc obj = Except.ok k := by
  unfold cache.MetaNamespaceKeyFunc
  split
  · exact ⟨_, rfl⟩
  · exact ⟨_, rfl⟩

theorem has_newString (l : List String) (t : String) :
    sets.Has (sets.NewString l) t = true ↔ t ∈ l := by
  simp [sets.Has, sets.NewString]

theorem mem_delete_newString (l : List String) (x t : String) :
    t ∈ sets.UnsortedList (sets.Delete (sets.NewString l) x) ↔ t ∈ l ∧ t ≠ x := by
  simp [sets.UnsortedList, sets.Delete, sets.NewString]

theorem mem_insert_newString (l : List String) (x t : String) :
    t ∈ sets.UnsortedList (sets.Insert (sets.NewString l) x) ↔ t ∈ l ∨ t = x := by
  unfold sets.UnsortedList sets.Insert sets.NewString
  split
  · rename_i h
    constructor
    · intro ht; exact Or.inl (List.mem_dedup.mp ht)
    · rintro (ht | rfl)
      · exact List.mem_dedup.mpr ht
      · exact h
  · simp

theorem update_fst (env : Env) (obj : Object) (w : World) :
    (Update env obj w).1 = updateResult env w.store obj := by
  unfold Update
  split <;> simp_all

theorem update_calls (env : Env) (obj : Object) (w : World) :
    (Update env obj w).2.calls = w.calls ++ [Call.update obj] := by
  unfold Update
  split <;> simp [World.record]

theorem update_store (env : Env) (obj : Object) (w : World) :
    (Update env obj w).2.store =
      if updateResult env w.store obj = none then w.store.put obj else w.store := by
  unfold Update
  split <;> simp_all [World.record]

theorem callsSince_append (w2 w : World) (cs : List Call) (h : w2.calls = w.calls ++ cs) :
    w2.callsSince w = cs := by
  simp [World.callsSince, h]

/-! ## Blocked deletion -/

/-- C1: for a SecretBinding with the deletion marker set and the controller's
finalizer present, when `DetermineShootAssociations` fails or returns a non-empty
association set, `ReconcileSecretBinding` returns a non-nil error, issues no update
call at all and leaves the store (hence both finalizer sets) as it was. -/
theorem reconcile_blocked_issues_no_update (env : Env) (obj : SecretBinding) (key : String)
    (w : World)
    (hdel : obj.DeletionTimestamp ≠ none)
    (hfin : env.GardenerName ∈ obj.Finalizers)
    (hres : (∃ err, env.DetermineShootAssociations obj = Except.error err) ∨
      (∃ shoots, env.DetermineShootAssociations obj = Except.ok shoots ∧ shoots ≠ [])) :
    (ReconcileSecretBinding env obj key w).1 ≠ none ∧
    (∀ o, Call.update o ∉ (ReconcileSecretBinding env obj key w).2.callsSince w) ∧
    (ReconcileSecretBinding env obj key w).2.store = w.store := by
  obtain ⟨k, hk⟩ := metaNamespaceKeyFunc_ok obj
  have hhas := (has_newString obj.Finalizers env.GardenerName).mpr hfin
  rcases hres with ⟨err, he⟩ | ⟨shoots, hs, hne⟩
  · simp [ReconcileSecretBinding, hk, hdel, hhas, he, World.callsSince, World.record]
  · have hlen : shoots.length ≠ 0 := by
      intro h; exact hne (List.length_eq_zero.mp h)
    simp [ReconcileSecretBinding, hk, hdel, hhas, hs, hlen, hne, World.callsSince, World.record]

/-- Witness for C1: one Shoot still references the binding under deletion. -/
theorem reconcile_blocked_issues_no_update_witness :
    exDeleting.DeletionTimestamp ≠ none ∧
    exEnvBlocked.GardenerName ∈ exDeleting.Finalizers ∧
    (ReconcileSecretBinding exEnvBlocked exDeleting "garden/b1" exWorld).1 ≠ none ∧
    (∀ o, Call.update o ∉
      (ReconcileSecretBinding exEnvBlocked exDeleting "garden/b1" exWorld).2.callsSince
        exWorld) ∧
    (ReconcileSecretBinding exEnvBlocked exDeleting "garden/b1" exWorld).2.store
      = exWorld.store :=
  ⟨by decide, by decide,
    reconcile_blocked_issues_no_update exEnvBlocked exDeleting "garden/b1" exWorld
      (by decide) (by decide) (Or.inr ⟨["garden/shoot1"], rfl, by decide⟩)⟩

theorem secretLister_ok (env : Env) (st : Store) (ns name : String) (secret : Secret)
    (h : secretLister env st ns name = Except.ok secret) :
    env.secretListerFault = none ∧ st.getSecret ns name = some secret ∧
      secret.Namespace = ns ∧ secret.Name = name := by
  unfold secretLister at h
  split at h
  · cases h
  · rename_i hf
    split at h
    · rename_i s hs
      cases h
      have hp := List.find?_some hs
      simp only [Bool.and_eq_true, beq_iff_eq] at hp
      exact ⟨hf, hs, hp.1, hp.2⟩
    · cases h

theorem getSecretBinding_putSecret (st : Store) (s : Secret) (ns name : String) :
    (st.putSecret s).getSecretBinding ns name = st.getSecretBinding ns name := rfl

theorem getSecret_putSecretBinding (st : Store) (b : SecretBinding) (ns name : String) :
    (st.putSecretBinding b).getSecret ns name = st.getSecret ns name := rfl

theorem isNotFound_some (err : Error) :
    apierrors.IsNotFound (some err) = true ↔ err = Error.notFound := by
  cases err <;> simp [apierrors.IsNotFound]

theorem ignoreNotFound_eq_none (u : Option Error) :
    client.IgnoreNotFound u = none ↔ u = none ∨ u = some Error.notFound := by
  cases u with
  | none => simp [client.IgnoreNotFound, apierrors.IsNotFound]
  | some e => cases e <;> simp [client.IgnoreNotFound, apierrors.IsNotFound]

theorem ignoreNotFound_of_ne (u : Option Error) (h : client.IgnoreNotFound u ≠ none) :
    client.IgnoreNotFound u = u := by
  unfold client.IgnoreNotFound at h ⊢
  split
  · rename_i hnf; simp [hnf] at h
  · rfl

theorem ite_ignoreNotFound (r : Option Error × World) :
    (if client.IgnoreNotFound r.1 = none then (none, r.2) else r) =
      (client.IgnoreNotFound r.1, r.2) := by
  split
  · rename_i h; rw [h]
  · rename_i h; rw [ignoreNotFound_of_ne _ h]

theorem record_store (w : World) (c : Call) : (w.record c).store = w.store := rfl

theorem record_calls (w : World) (c : Call) : (w.record c).calls = w.calls ++ [c] := rfl

/-- The deletion path once the association set is empty and the Secret lookup
failed. -/
theorem reconcile_ready_lookup_error (env : Env) (obj : SecretBinding) (key : String)
    (w : World) (err : Error)
    (hdel : obj.DeletionTimestamp ≠ none)
    (hfin : env.GardenerName ∈ obj.Finalizers)
    (hres : env.DetermineShootAssociations obj = Except.ok [])
    (hget : secretLister env w.store obj.SecretRef.Namespace obj.SecretRef.Name
      = Except.error err) :
    ReconcileSecretBinding env obj key w =
      if err = Error.notFound then
        (client.IgnoreNotFound (Update env (Object.secretBinding { obj with
            Finalizers := sets.UnsortedList
              (sets.Delete (sets.NewString obj.Finalizers) env.GardenerName) })
            (w.record (Call.determineShootAssociations obj))).1,
          (Update env (Object.secretBinding { obj with
            Finalizers := sets.UnsortedList
              (sets.Delete (sets.NewString obj.Finalizers) env.GardenerName) })
            (w.record (Call.determineShootAssociations obj))).2)
      else (some err, w.record (Call.determineShootAssociations obj)) := by
  obtain ⟨k, hk⟩ := metaNamespaceKeyFunc_ok obj
  have hhas := (has_newString obj.Finalizers env.GardenerName).mpr hfin
  by_cases hnf : err = Error.notFound
  · subst hnf
    have h1 : apierrors.IsNotFound (some Error.notFound) = true := rfl
    simp [ReconcileSecretBinding, hk, hdel, hhas, hres, hget, record_store, h1,
      ite_ignoreNotFound]
  · have h1 : apierrors.IsNotFound (some err) = false := by
      cases h : apierrors.IsNotFound (some err)
      · rfl
      · exact absurd ((isNotFound_some err).mp h) hnf
    simp [ReconcileSecretBinding, hk, hdel, hhas, hres, hget, record_store, h1, hnf]

/-- The deletion path once the association set is empty and the Secret was
found. -/
theorem reconcile_ready_lookup_ok (env : Env) (obj : SecretBinding) (key : String)
    (w : World) (secret : Secret)
    (hdel : obj.DeletionTimestamp ≠ none)
    (hfin : env.GardenerName ∈ obj.Finalizers)
    (hres : env.DetermineShootAssociations obj = Except.ok [])
    (hget : secretLister env w.store obj.SecretRef.Namespace obj.SecretRef.Name
      = Except.ok secret) :
    ReconcileSecretBinding env obj key w =
      if client.IgnoreNotFound (Update env (Object.secret { secret with
          Finalizers := sets.UnsortedList
            (sets.Delete (sets.NewString secret.Finalizers) env.ExternalGardenerName) })
          (w.record (Call.determineShootAssociations obj))).1 = none then
        (client.IgnoreNotFound (Update env (Object.secretBinding { obj with
            Finalizers := sets.UnsortedList
              (sets.Delete (sets.NewString obj.Finalizers) env.GardenerName) })
            (Update env (Object.secret { secret with
              Finalizers := sets.UnsortedList
                (sets.Delete (sets.NewString secret.Finalizers) env.ExternalGardenerName) })
              (w.record (Call.determineShootAssociations obj))).2).1,
          (Update env (Object.secretBinding { obj with
            Finalizers := sets.UnsortedList
              (sets.Delete (sets.NewString obj.Finalizers) env.GardenerName) })
            (Update env (Object.secret { secret with
              Finalizers := sets.UnsortedList
                (sets.Delete (sets.NewString secret.Finalizers) env.ExternalGardenerName) })
              (w.record (Call.determineShootAssociations obj))).2).2)
      else
        Update env (Object.secret { secret with
          Finalizers := sets.UnsortedList
            (sets.Delete (sets.NewString secret.Finalizers) env.ExternalGardenerName) })
          (w.record (Call.determineShootAssociations obj)) := by
  obtain ⟨k, hk⟩ := metaNamespaceKeyFunc_ok obj
  have hhas := (has_newString obj.Finalizers env.GardenerName).mpr hfin
  simp [ReconcileSecretBinding, hk, hdel, hhas, hres, hget, record_store, ite_ignoreNotFound]

theorem updateResult_secret_none (env : Env) (st : Store) (s : Secret)
    (hf : env.updateSecretFault = none)
    (h : (st.getSecret s.Namespace s.Name).isSome = true) :
    updateResult env st (Object.secret s) = none := by
  simp [updateResult, hf, h]

theorem updateResult_secretBinding_none (env : Env) (st : Store) (b : SecretBinding)
    (hf : env.updateSecretBindingFault = none)
    (h : (st.getSecretBinding b.Namespace b.Name).isSome = true) :
    updateResult env st (Object.secretBinding b) = none := by
  simp [updateResult, hf, h]

/-- The answer to an update of a SecretBinding does not depend on the stored
Secrets. -/
theorem updateResult_secretBinding_putSecret (env : Env) (st : Store) (b : SecretBinding)
    (s : Secret) :
    updateResult env (st.putSecret s) (Object.secretBinding b) =
      updateResult env st (Object.secretBinding b) := rfl

/-! ## Accepted deletion -/

/-- C2: with the deletion marker set, the controller's finalizer present, an empty
association set, the referenced Secret found and both updates acknowledged (no
failure injected, both objects stored), `ReconcileSecretBinding` returns nil after
exactly two update calls, the Secret first and the SecretBinding second; the
Secret is written with its previous finalizers minus `ExternalGardenerName`, the
SecretBinding with its previous finalizers minus `GardenerName`, all other fields
and all other tokens kept. -/
theorem reconcile_release_two_updates (env : Env) (obj : SecretBinding) (key : String)
    (w : World) (secret : Secret)
    (hdel : obj.DeletionTimestamp ≠ none)
    (hfin : env.GardenerName ∈ obj.Finalizers)
    (hres : env.DetermineShootAssociations obj = Except.ok [])
    (hget : secretLister env w.store obj.SecretRef.Namespace obj.SecretRef.Name
      = Except.ok secret)
    (hupdS : env.updateSecretFault = none)
    (hupdB : env.updateSecretBindingFault = none)
    (hobj : (w.store.getSecretBinding obj.Namespace obj.Name).isSome = true) :
    ∃ s2 b2,
      (ReconcileSecretBinding env obj key w).1 = none ∧
      (ReconcileSecretBinding env obj key w).2.callsSince w =
        [Call.determineShootAssociations obj, Call.update (Object.secret s2),
          Call.update (Object.secretBinding b2)] ∧
      s2.Namespace = secret.Namespace ∧ s2.Name = secret.Name ∧
      (∀ t, t ∈ s2.Finalizers ↔ t ∈ secret.Finalizers ∧ t ≠ env.ExternalGardenerName) ∧
      b2.Namespace = obj.Namespace ∧ b2.Name = obj.Name ∧
      b2.DeletionTimestamp = obj.DeletionTimestamp ∧ b2.SecretRef = obj.SecretRef ∧
      (∀ t, t ∈ b2.Finalizers ↔ t ∈ obj.Finalizers ∧ t ≠ env.GardenerName) := by
  obtain ⟨_, hst, hns, hname⟩ := secretLister_ok _ _ _ _ _ hget
  have hst2 : (w.store.getSecret secret.Namespace secret.Name).isSome = true := by
    rw [hns, hname, hst]; rfl
  have hS : (Update env (Object.secret { secret with
      Finalizers := sets.UnsortedList
        (sets.Delete (sets.NewString secret.Finalizers) env.ExternalGardenerName) })
      (w.record (Call.determineShootAssociations obj))).1 = none := by
    rw [update_fst]
    exact updateResult_secret_none env _ _ hupdS hst2
  have hB : (Update env (Object.secretBinding { obj with
      Finalizers := sets.UnsortedList
        (sets.Delete (sets.NewString obj.Finalizers) env.GardenerName) })
      (Update env (Object.secret { secret with
        Finalizers := sets.UnsortedList
          (sets.Delete (sets.NewString secret.Finalizers) env.ExternalGardenerName) })
        (w.record (Call.determineShootAssociations obj))).2).1 = none := by
    rw [update_fst, update_store, ← update_fst, hS]
    exact updateResult_secretBinding_none env _ _ hupdB hobj
  refine ⟨{ secret with
      Finalizers := sets.UnsortedList
        (sets.Delete (sets.NewString secret.Finalizers) env.ExternalGardenerName) },
    { obj with
      Finalizers := sets.UnsortedList
        (sets.Delete (sets.NewString obj.Finalizers) env.GardenerName) }, ?_, ?_, rfl, rfl,
    fun t => mem_delete_newString _ _ t, rfl, rfl, rfl, rfl,
    fun t => mem_delete_newString _ _ t⟩
  · rw [reconcile_ready_lookup_ok env obj key w secret hdel hfin hres hget, hS]
    simp [hB, client.IgnoreNotFound, apierrors.IsNotFound]
  · apply callsSince_append
    rw [reconcile_ready_lookup_ok env obj key w secret hdel hfin hres hget, hS]
    simp [client.IgnoreNotFound, apierrors.IsNotFound, update_calls, record_calls]

/-- The SecretBinding written by the accepted deletion is the one reconciled with
`GardenerName` taken out. -/
theorem stripsFinalizer_written (env : Env) (obj : SecretBinding) :
    StripsFinalizer obj env.GardenerName { obj with
      Finalizers := sets.UnsortedList
        (sets.Delete (sets.NewString obj.Finalizers) env.GardenerName) } :=
  ⟨rfl, rfl, rfl, rfl, fun t => mem_delete_newString _ _ t⟩

/-- The calls of the accepted deletion when the Secret lookup failed: the
resolver run, and after a NotFound the update of the SecretBinding. -/
theorem reconcile_ready_calls_lookup_error (env : Env) (obj : SecretBinding)
    (key : String) (w : World) (err : Error)
    (hdel : obj.DeletionTimestamp ≠ none)
    (hfin : env.GardenerName ∈ obj.Finalizers)
    (hres : env.DetermineShootAssociations obj = Except.ok [])
    (hget : secretLister env w.store obj.SecretRef.Namespace obj.SecretRef.Name
      = Except.error err) :
    (ReconcileSecretBinding env obj key w).2.callsSince w =
      if err = Error.notFound then
        [Call.determineShootAssociations obj,
          Call.update (Object.secretBinding { obj with
            Finalizers := sets.UnsortedList
              (sets.Delete (sets.NewString obj.Finalizers) env.GardenerName) })]
      else [Call.determineShootAssociations obj] := by
  rw [reconcile_ready_lookup_error env obj key w err hdel hfin hres hget]
  split
  · exact callsSince_append _ w _ (by rw [update_calls, record_calls, List.append_assoc]; rfl)
  · exact callsSince_append _ w _ (record_calls w _)

/-- The calls of the accepted deletion when the Secret was found: the resolver
run, the update of the Secret, and after an answer of nil or NotFound the update
of the SecretBinding. -/
theorem reconcile_ready_calls_lookup_ok (env : Env) (obj : SecretBinding)
    (key : String) (w : World) (secret : Secret)
    (hdel : obj.DeletionTimestamp ≠ none)
    (hfin : env.GardenerName ∈ obj.Finalizers)
    (hres : env.DetermineShootAssociations obj = Except.ok [])
    (hget : secretLister env w.store obj.SecretRef.Namespace obj.SecretRef.Name
      = Except.ok secret) :
    (ReconcileSecretBinding env obj key w).2.callsSince w =
      if client.IgnoreNotFound (updateResult env w.store (Object.secret { secret with
          Finalizers := sets.UnsortedList
            (sets.Delete (sets.NewString secret.Finalizers) env.ExternalGardenerName) }))
          = none then
        [Call.determineShootAssociations obj,
          Call.update (Object.secret { secret with
            Finalizers := sets.UnsortedList
              (sets.Delete (sets.NewString secret.Finalizers) env.ExternalGardenerName) }),
          Call.update (Object.secretBinding { obj with
            Finalizers := sets.UnsortedList
              (sets.Delete (sets.NewString obj.Finalizers) env.GardenerName) })]
      else
        [Call.determineShootAssociations obj,
          Call.update (Object.secret { secret with
            Finalizers := sets.UnsortedList
              (sets.Delete (sets.NewString secret.Finalizers) env.ExternalGardenerName) })] := by
  rw [reconcile_ready_lookup_ok env obj key w secret hdel hfin hres hget, update_fst,
    record_store]
  split
  · exact callsSince_append _ w _
      (by rw [update_calls, update_calls, record_calls, List.append_assoc,
        List.append_assoc]; rfl)
  · exact callsSince_append _ w _
      (by rw [update_calls, record_calls, List.append_assoc]; rfl)

/-- C3: on the path with the deletion marker set, the controller's finalizer present
and an empty association set, the update that removes the finalizer of the
SecretBinding (it writes the SecretBinding with `GardenerName` taken out and
nothing else changed) is issued exactly when the Secret step ended well: the
Secret lookup answered NotFound, or it found the Secret and the Secret update
answered nil or NotFound.  Any other error of the lookup or of the Secret update
is the error `ReconcileSecretBinding` returns; then no update of a SecretBinding is
issued and the store is left as it was, so the SecretBinding keeps its
finalizer.  No other update of a SecretBinding is ever issued on this path. -/
theorem reconcile_binding_update_iff_secret_step (env : Env) (obj : SecretBinding)
    (key : String) (w : World)
    (hdel : obj.DeletionTimestamp ≠ none)
    (hfin : env.GardenerName ∈ obj.Finalizers)
    (hres : env.DetermineShootAssociations obj = Except.ok []) :
    (∀ err, secretLister env w.store obj.SecretRef.Namespace obj.SecretRef.Name
        = Except.error err →
      ((∃ b, Call.update (Object.secretBinding b) ∈
            (ReconcileSecretBinding env obj key w).2.callsSince w ∧
          StripsFinalizer obj env.GardenerName b) ↔ err = Error.notFound) ∧
      (err ≠ Error.notFound →
        (ReconcileSecretBinding env obj key w).1 = some err ∧
        (∀ b, Call.update (Object.secretBinding b) ∉
          (ReconcileSecretBinding env obj key w).2.callsSince w) ∧
        (ReconcileSecretBinding env obj key w).2.store = w.store)) ∧
    (∀ secret u, secretLister env w.store obj.SecretRef.Namespace obj.SecretRef.Name
        = Except.ok secret →
      updateResult env w.store (Object.secret { secret with
        Finalizers := sets.UnsortedList
          (sets.Delete (sets.NewString secret.Finalizers) env.ExternalGardenerName) }) = u →
      ((∃ b, Call.update (Object.secretBinding b) ∈
            (ReconcileSecretBinding env obj key w).2.callsSince w ∧
          StripsFinalizer obj env.GardenerName b) ↔
        (u = none ∨ u = some Error.notFound)) ∧
      (∀ err, u = some err → err ≠ Error.notFound →
        (ReconcileSecretBinding env obj key w).1 = some err ∧
        (∀ b, Call.update (Object.secretBinding b) ∉
          (ReconcileSecretBinding env obj key w).2.callsSince w) ∧
        (ReconcileSecretBinding env obj key w).2.store = w.store)) ∧
    (∀ b, Call.update (Object.secretBinding b) ∈
        (ReconcileSecretBinding env obj key w).2.callsSince w →
      StripsFinalizer obj env.GardenerName b) := by
  refine ⟨?_, ?_, ?_⟩
  · intro err hget
    rw [reconcile_ready_calls_lookup_error env obj key w err hdel hfin hres hget]
    by_cases hnf : err = Error.notFound
    · rw [if_pos hnf]
      refine ⟨⟨fun _ => hnf, fun _ => ⟨_, by simp, stripsFinalizer_written env obj⟩⟩, ?_⟩
      intro hne
      exact absurd hnf hne
    · rw [if_neg hnf]
      refine ⟨⟨?_, fun h => absurd h hnf⟩, ?_⟩
      · rintro ⟨b, hb, _⟩
        simp at hb
      · intro _
        refine ⟨?_, by simp, ?_⟩
        · rw [reconcile_ready_lookup_error env obj key w err hdel hfin hres hget,
            if_neg hnf]
        · rw [reconcile_ready_lookup_error env obj key w err hdel hfin hres hget,
            if_neg hnf]
          rfl
  · intro secret u hget hu
    rw [reconcile_ready_calls_lookup_ok env obj key w secret hdel hfin hres hget, hu]
    by_cases hok : u = none ∨ u = some Error.notFound
    · rw [if_pos ((ignoreNotFound_eq_none u).mpr hok)]
      refine ⟨⟨fun _ => hok, fun _ => ⟨_, by simp, stripsFinalizer_written env obj⟩⟩, ?_⟩
      intro err he hne
      rcases hok with h | h
      · rw [h] at he; cases he
      · rw [h] at he; cases he; exact absurd rfl hne
    · have hig : client.IgnoreNotFound u ≠ none := fun h =>
        hok ((ignoreNotFound_eq_none u).mp h)
      rw [if_neg hig]
      refine ⟨⟨?_, fun h => absurd h hok⟩, ?_⟩
      · rintro ⟨b, hb, _⟩
        simp at hb
      · intro err he _
        have hR : ReconcileSecretBinding env obj key w =
            Update env (Object.secret { secret with
              Finalizers := sets.UnsortedList
                (sets.Delete (sets.NewString secret.Finalizers) env.ExternalGardenerName) })
              (w.record (Call.determineShootAssociations obj)) := by
          rw [reconcile_ready_lookup_ok env obj key w secret hdel hfin hres hget,
            update_fst, record_store, hu, if_neg hig]
        refine ⟨?_, by simp, ?_⟩
        · rw [hR, update_fst, record_store, hu, he]
        · rw [hR, update_store, record_store, hu, he]
          simp
  · intro b hb
    cases hget : secretLister env w.store obj.SecretRef.Namespace obj.SecretRef.Name with
    | error err =>
      rw [reconcile_ready_calls_lookup_error env obj key w err hdel hfin hres hget] at hb
      split at hb
      · simp at hb
        rw [hb]
        exact stripsFinalizer_written env obj
      · simp at hb
    | ok secret =>
      rw [reconcile_ready_calls_lookup_ok env obj key w secret hdel hfin hres hget] at hb
      split at hb
      · simp at hb
        rw [hb]
        exact stripsFinalizer_written env obj
      · simp at hb

/-- Witness for C2: the release of `exDeleting` in `exWorld`. -/
theorem reconcile_release_two_updates_witness :
    ∃ s2 b2,
      (ReconcileSecretBinding exEnv exDeleting "garden/b1" exWorld).1 = none ∧
      (ReconcileSecretBinding exEnv exDeleting "garden/b1" exWorld).2.callsSince exWorld =
        [Call.determineShootAssociations exDeleting, Call.update (Object.secret s2),
          Call.update (Object.secretBinding b2)] ∧
      s2.Namespace = exSecret.Namespace ∧ s2.Name = exSecret.Name ∧
      (∀ t, t ∈ s2.Finalizers ↔
        t ∈ exSecret.Finalizers ∧ t ≠ exEnv.ExternalGardenerName) ∧
      b2.Namespace = exDeleting.Namespace ∧ b2.Name = exDeleting.Name ∧
      b2.DeletionTimestamp = exDeleting.DeletionTimestamp ∧
      b2.SecretRef = exDeleting.SecretRef ∧
      (∀ t, t ∈ b2.Finalizers ↔ t ∈ exDeleting.Finalizers ∧ t ≠ exEnv.GardenerName) :=
  reconcile_release_two_updates exEnv exDeleting "garden/b1" exWorld exSecret
    (by decide) (by decide) rfl rfl rfl rfl rfl

/-- Witness for C3: in `exWorld` the Secret update is acknowledged and the update
issued for the SecretBinding writes `exDeleting` without `gardener`; when the
Secret update meets a conflict instead, the conflict is returned, no SecretBinding
is updated and the store is as before. -/
theorem reconcile_binding_update_iff_secret_step_witness :
    (∃ b, Call.update (Object.secretBinding b) ∈
        (ReconcileSecretBinding exEnv exDeleting "garden/b1" exWorld).2.callsSince exWorld ∧
      StripsFinalizer exDeleting exEnv.GardenerName b) ∧
    ((ReconcileSecretBinding exEnvSecretConflict exDeleting "garden/b1" exWorld).1
        = some Error.conflict ∧
      (∀ b, Call.update (Object.secretBinding b) ∉
        (ReconcileSecretBinding exEnvSecretConflict exDeleting "garden/b1"
          exWorld).2.callsSince exWorld) ∧
      (ReconcileSecretBinding exEnvSecretConflict exDeleting "garden/b1" exWorld).2.store
        = exWorld.store) :=
  ⟨((reconcile_binding_update_iff_secret_step exEnv exDeleting "garden/b1" exWorld
      (by decide) (by decide) rfl).2.1 exSecret none rfl rfl).1.mpr (Or.inl rfl),
    ((reconcile_binding_update_iff_secret_step exEnvSecretConflict exDeleting "garden/b1"
      exWorld (by decide) (by decide) rfl).2.1 exSecret (some Error.conflict) rfl rfl).2
      Error.conflict rfl (by decide)⟩

/-! ## The store after an update -/

theorem getSecret_putSecret (st : Store) (s : Secret) :
    (st.putSecret s).getSecret s.Namespace s.Name =
      (st.getSecret s.Namespace s.Name).map (fun _ => s) := by
  unfold Store.putSecret Store.getSecret
  simp only
  induction st.secrets with
  | nil => rfl
  | cons x xs ih =>
    by_cases hx : (x.Namespace == s.Namespace && x.Name == s.Name) = true
    · simp [List.find?, hx]
    · simp only [Bool.not_eq_true] at hx
      simp only [List.map_cons, hx, List.find?, Bool.false_eq_true, if_false]
      exact ih

theorem getSecretBinding_putSecretBinding (st : Store) (b : SecretBinding) :
    (st.putSecretBinding b).getSecretBinding b.Namespace b.Name =
      (st.getSecretBinding b.Namespace b.Name).map (fun _ => b) := by
  unfold Store.putSecretBinding Store.getSecretBinding
  simp only
  induction st.secretBindings with
  | nil => rfl
  | cons x xs ih =>
    by_cases hx : (x.Namespace == b.Namespace && x.Name == b.Name) = true
    · simp [List.find?, hx]
    · simp only [Bool.not_eq_true] at hx
      simp only [List.map_cons, hx, List.find?, Bool.false_eq_true, if_false]
      exact ih

/-- An update of a SecretBinding, acknowledged or not, leaves the stored Secrets
alone. -/
theorem update_secretBinding_secrets (env : Env) (b : SecretBinding) (w : World) :
    (Update env (Object.secretBinding b) w).2.store.secrets = w.store.secrets := by
  rw [update_store]
  split <;> rfl

/-- An update of a Secret, acknowledged or not, leaves the stored SecretBindings
alone. -/
theorem update_secret_secretBindings (env : Env) (s : Secret) (w : World) :
    (Update env (Object.secret s) w).2.store.secretBindings = w.store.secretBindings := by
  rw [update_store]
  split <;> rfl

theorem getSecret_congr (st1 st2 : Store) (h : st1.secrets = st2.secrets)
    (ns name : String) : st1.getSecret ns name = st2.getSecret ns name := by
  unfold Store.getSecret; rw [h]

theorem getSecretBinding_congr (st1 st2 : Store)
    (h : st1.secretBindings = st2.secretBindings) (ns name : String) :
    st1.getSecretBinding ns name = st2.getSecretBinding ns name := by
  unfold Store.getSecretBinding; rw [h]

/-- The store after the accepted deletion whose Secret update was acknowledged:
the Secret is stored as written, whatever the answer to the update of the
SecretBinding. -/
theorem reconcile_ready_secret_stored (env : Env) (obj : SecretBinding) (key : String)
    (w : World) (secret : Secret)
    (hdel : obj.DeletionTimestamp ≠ none)
    (hfin : env.GardenerName ∈ obj.Finalizers)
    (hres : env.DetermineShootAssociations obj = Except.ok [])
    (hget : secretLister env w.store obj.SecretRef.Namespace obj.SecretRef.Name
      = Except.ok secret)
    (hupdS : env.updateSecretFault = none) :
    (ReconcileSecretBinding env obj key w).2.store.getSecret obj.SecretRef.Namespace
        obj.SecretRef.Name =
      some { secret with
        Finalizers := sets.UnsortedList
          (sets.Delete (sets.NewString secret.Finalizers) env.ExternalGardenerName) } := by
  obtain ⟨_, hst, hns, hname⟩ := secretLister_ok _ _ _ _ _ hget
  have hst2 : (w.store.getSecret secret.Namespace secret.Name).isSome = true := by
    rw [hns, hname, hst]; rfl
  have hS : (Update env (Object.secret { secret with
      Finalizers := sets.UnsortedList
        (sets.Delete (sets.NewString secret.Finalizers) env.ExternalGardenerName) })
      (w.record (Call.determineShootAssociations obj))).1 = none := by
    rw [update_fst]
    exact updateResult_secret_none env _ _ hupdS hst2
  have hi : client.IgnoreNotFound none = none := rfl
  rw [reconcile_ready_lookup_ok env obj key w secret hdel hfin hres hget, hS, if_pos hi]
  dsimp only
  rw [getSecret_congr _ _ (update_secretBinding_secrets env _ _), update_store,
    ← update_fst, hS]
  simp only [if_true, Store.put, record_store]
  have h := getSecret_putSecret w.store { secret with
    Finalizers := sets.UnsortedList
      (sets.Delete (sets.NewString secret.Finalizers) env.ExternalGardenerName) }
  simp only [hns, hname, hst, Option.map_some'] at h
  rw [hns, hname]
  exact h

/-! ## Secrets shared by several bindings -/

/-- C4, as stated, fails: `exDeleting` and the live `exLive` reference the same
Secret, which carries the external token; reconciling `exDeleting` (deletion
marker set, controller's finalizer present, no Shoot associated) stores the Secret
without the external token. -/
theorem shared_secret_loses_token :
    exDeleting ≠ exLive ∧ exDeleting.SecretRef = exLive.SecretRef ∧
    exDeleting ∈ exWorld.store.secretBindings ∧ exLive ∈ exWorld.store.secretBindings ∧
    exLive.DeletionTimestamp = none ∧
    exWorld.store.getSecret "garden" "s" = some exSecret ∧
    exEnv.ExternalGardenerName ∈ exSecret.Finalizers ∧
    exDeleting.DeletionTimestamp ≠ none ∧ exEnv.GardenerName ∈ exDeleting.Finalizers ∧
    exEnv.DetermineShootAssociations exDeleting = Except.ok [] ∧
    (ReconcileSecretBinding exEnv exDeleting "garden/b1" exWorld).2.store.getSecret
        "garden" "s" = some { Namespace := "garden", Name := "s", Finalizers := ["other"] } ∧
    exEnv.ExternalGardenerName ∉ ["other"] := by
  refine ⟨by decide, rfl, by decide, by decide, rfl, rfl, by decide, by decide, by decide,
    rfl, rfl, by decide⟩

/-- C4, amended: the release of a binding does not look at the other bindings.  For
every store state, reconciling a SecretBinding with the deletion marker set, the
controller's finalizer present and an empty association set, whose Secret is
found and whose Secret update is acknowledged, leaves the Secret stored without
`ExternalGardenerName` and with every other token it had. -/
theorem reconcile_release_strips_secret (env : Env) (obj : SecretBinding) (key : String)
    (w : World) (secret : Secret)
    (hdel : obj.DeletionTimestamp ≠ none)
    (hfin : env.GardenerName ∈ obj.Finalizers)
    (hres : env.DetermineShootAssociations obj = Except.ok [])
    (hget : secretLister env w.store obj.SecretRef.Namespace obj.SecretRef.Name
      = Except.ok secret)
    (hupdS : env.updateSecretFault = none) :
    ∃ s2, (ReconcileSecretBinding env obj key w).2.store.getSecret obj.SecretRef.Namespace
        obj.SecretRef.Name = some s2 ∧
      env.ExternalGardenerName ∉ s2.Finalizers ∧
      (∀ t, t ≠ env.ExternalGardenerName → (t ∈ s2.Finalizers ↔ t ∈ secret.Finalizers)) := by
  refine ⟨_, reconcile_ready_secret_stored env obj key w secret hdel hfin hres hget hupdS,
    ?_, ?_⟩
  · intro h
    exact ((mem_delete_newString _ _ _).mp h).2 rfl
  · intro t ht
    constructor
    · intro h; exact ((mem_delete_newString _ _ _).mp h).1
    · intro h; exact (mem_delete_newString _ _ _).mpr ⟨h, ht⟩

/-- Witness for the amended C4, in the store where the live `exLive` shares the
Secret. -/
theorem reconcile_release_strips_secret_witness :
    exLive ∈ exWorld.store.secretBindings ∧ exLive.SecretRef = exDeleting.SecretRef ∧
    ∃ s2, (ReconcileSecretBinding exEnv exDeleting "garden/b1" exWorld).2.store.getSecret
        exDeleting.SecretRef.Namespace exDeleting.SecretRef.Name = some s2 ∧
      exEnv.ExternalGardenerName ∉ s2.Finalizers ∧
      (∀ t, t ≠ exEnv.ExternalGardenerName →
        (t ∈ s2.Finalizers ↔ t ∈ exSecret.Finalizers)) :=
  ⟨by decide, rfl,
    reconcile_release_strips_secret exEnv exDeleting "garden/b1" exWorld exSecret
      (by decide) (by decide) rfl rfl rfl⟩

theorem updateResult_secretBinding_fault (env : Env) (st : Store) (b : SecretBinding)
    (err : Error) (hf : env.updateSecretBindingFault = some err) :
    updateResult env st (Object.secretBinding b) = some err := by
  simp [updateResult, hf]

theorem ignoreNotFound_some (err : Error) (hne : err ≠ Error.notFound) :
    client.IgnoreNotFound (some err) = some err := by
  cases err <;> simp_all [client.IgnoreNotFound, apierrors.IsNotFound]

/-! ## A release interrupted between its two steps -/

/-- C5, as stated, fails: when the update of the Secret is acknowledged and the
update of the SecretBinding then meets a conflict, the error is returned, the
SecretBinding stays stored with the controller's finalizer, and the Secret is
stored without the external token. -/
theorem interrupted_release_secret_unprotected :
    exDeleting.DeletionTimestamp ≠ none ∧ exEnvConflict.GardenerName ∈ exDeleting.Finalizers ∧
    exEnvConflict.DetermineShootAssociations exDeleting = Except.ok [] ∧
    exWorld.store.getSecret "garden" "s" = some exSecret ∧
    exEnvConflict.ExternalGardenerName ∈ exSecret.Finalizers ∧
    (ReconcileSecretBinding exEnvConflict exDeleting "garden/b1" exWorld).1
      = some Error.conflict ∧
    (ReconcileSecretBinding exEnvConflict exDeleting "garden/b1" exWorld).2.store.getSecret
        "garden" "s" = some { Namespace := "garden", Name := "s", Finalizers := ["other"] } ∧
    exEnvConflict.ExternalGardenerName ∉ ["other"] ∧
    (ReconcileSecretBinding exEnvConflict exDeleting "garden/b1"
        exWorld).2.store.getSecretBinding "garden" "b1" = some exDeleting := by
  refine ⟨by decide, by decide, rfl, rfl, by decide, rfl, rfl, by decide, rfl⟩

/-- C5, amended: when the Secret is found, its update is acknowledged and the update
of the SecretBinding then fails with an error other than NotFound,
`ReconcileSecretBinding` returns that error; in the resulting store the Secret no
longer carries `ExternalGardenerName`, and the SecretBinding is stored as before,
still carrying `GardenerName`, so the reconciliation can be retried. -/
theorem reconcile_binding_update_failed (env : Env) (obj : SecretBinding) (key : String)
    (w : World) (secret : Secret) (err : Error)
    (hdel : obj.DeletionTimestamp ≠ none)
    (hfin : env.GardenerName ∈ obj.Finalizers)
    (hres : env.DetermineShootAssociations obj = Except.ok [])
    (hget : secretLister env w.store obj.SecretRef.Namespace obj.SecretRef.Name
      = Except.ok secret)
    (hupdS : env.updateSecretFault = none)
    (hupdB : env.updateSecretBindingFault = some err)
    (hne : err ≠ Error.notFound)
    (hobj : w.store.getSecretBinding obj.Namespace obj.Name = some obj) :
    (ReconcileSecretBinding env obj key w).1 = some err ∧
    (∃ s2, (ReconcileSecretBinding env obj key w).2.store.getSecret obj.SecretRef.Namespace
        obj.SecretRef.Name = some s2 ∧ env.ExternalGardenerName ∉ s2.Finalizers) ∧
    (∃ b2, (ReconcileSecretBinding env obj key w).2.store.getSecretBinding obj.Namespace
        obj.Name = some b2 ∧ b2 = obj ∧ env.GardenerName ∈ b2.Finalizers) := by
  refine ⟨?_, ⟨_, reconcile_ready_secret_stored env obj key w secret hdel hfin hres hget
    hupdS, fun h => ((mem_delete_newString _ _ _).mp h).2 rfl⟩, obj, ?_, rfl, hfin⟩
  all_goals
    obtain ⟨_, hst, hns, hname⟩ := secretLister_ok _ _ _ _ _ hget
    have hst2 : (w.store.getSecret secret.Namespace secret.Name).isSome = true := by
      rw [hns, hname, hst]; rfl
    have hS : (Update env (Object.secret { secret with
        Finalizers := sets.UnsortedList
          (sets.Delete (sets.NewString secret.Finalizers) env.ExternalGardenerName) })
        (w.record (Call.determineShootAssociations obj))).1 = none := by
      rw [update_fst]
      exact updateResult_secret_none env _ _ hupdS hst2
    have hi : client.IgnoreNotFound none = none := rfl
    rw [reconcile_ready_lookup_ok env obj key w secret hdel hfin hres hget, hS, if_pos hi]
    dsimp only
  · rw [update_fst, updateResult_secretBinding_fault env _ _ err hupdB]
    exact ignoreNotFound_some err hne
  · have hsb : ∀ (b : SecretBinding) (w2 : World),
        (Update env (Object.secretBinding b) w2).2.store = w2.store := by
      intro b w2
      rw [update_store, updateResult_secretBinding_fault env _ _ err hupdB]
      simp
    rw [hsb, getSecretBinding_congr _ _ (update_secret_secretBindings env _ _),
      record_store]
    exact hobj

/-- Witness for the amended C5: the update of `exDeleting` meets a conflict. -/
theorem reconcile_binding_update_failed_witness :
    (ReconcileSecretBinding exEnvConflict exDeleting "garden/b1" exWorld).1
      = some Error.conflict ∧
    (∃ s2, (ReconcileSecretBinding exEnvConflict exDeleting "garden/b1"
        exWorld).2.store.getSecret exDeleting.SecretRef.Namespace exDeleting.SecretRef.Name
        = some s2 ∧ exEnvConflict.ExternalGardenerName ∉ s2.Finalizers) ∧
    (∃ b2, (ReconcileSecretBinding exEnvConflict exDeleting "garden/b1"
        exWorld).2.store.getSecretBinding exDeleting.Namespace exDeleting.Name = some b2 ∧
      b2 = exDeleting ∧ exEnvConflict.GardenerName ∈ b2.Finalizers) :=
  reconcile_binding_update_failed exEnvConflict exDeleting "garden/b1" exWorld exSecret
    Error.conflict (by decide) (by decide) rfl rfl rfl rfl (by decide) rfl

/-! ## Keys of released bindings -/

/-- C6: when the lookup of the key's SecretBinding answers NotFound, or finds a
SecretBinding with the deletion marker set and without `GardenerName` among its
finalizers, `reconcileSecretBindingKey` (with the default control) returns nil and
leaves the whole controller state as it was: no call is logged (no update, no
run of the Dependency Resolver, no event), the store is unchanged and so is the
queue. -/
theorem reconcileKey_released_is_noop (env : Env) (key : String) (c : Controller)
    (ns name : String)
    (hkey : cache.SplitMetaNamespaceKey key = Except.ok (ns, name))
    (hrel : secretBindingLister env c.world.store ns name = Except.error Error.notFound ∨
      ∃ b, secretBindingLister env c.world.store ns name = Except.ok b ∧
        b.DeletionTimestamp ≠ none ∧ env.GardenerName ∉ b.Finalizers) :
    reconcileSecretBindingKey env (NewDefaultControl env) key c = (none, c) := by
  rcases hrel with hnf | ⟨b, hb, hdel, hfin⟩
  · simp [reconcileSecretBindingKey, hkey, hnf, apierrors.IsNotFound]
  · obtain ⟨k, hk⟩ := metaNamespaceKeyFunc_ok b
    have hhas : sets.Has (sets.NewString b.Finalizers) env.GardenerName = false := by
      cases h : sets.Has (sets.NewString b.Finalizers) env.GardenerName
      · rfl
      · exact absurd ((has_newString _ _).mp h) hfin
    simp [reconcileSecretBindingKey, hkey, hb, NewDefaultControl, ReconcileSecretBinding, hk,
      hdel, hhas]

/-- Witness for C6: the key of a SecretBinding that is not stored. -/
theorem reconcileKey_released_is_noop_witness :
    cache.SplitMetaNamespaceKey "garden/gone" = Except.ok ("garden", "gone") ∧
    reconcileSecretBindingKey exEnv (NewDefaultControl exEnv) "garden/gone" exController
      = (none, exController) :=
  ⟨rfl, reconcileKey_released_is_noop exEnv "garden/gone" exController "garden" "gone" rfl
    (Or.inl rfl)⟩

/-! ## Re-enqueueing -/

/-- C9: for a key whose SecretBinding is found, `reconcileSecretBindingKey` returns nil,
keeps the world the control left, leaves the pending keys alone and appends to the
waiting keys exactly `(key, time.Minute)` when `ReconcileSecretBinding` returned a
non-nil error, and nothing when it returned nil. -/
theorem reconcileKey_requeues_iff_error (env : Env) (control : ControlInterface)
    (key : String) (c : Controller) (ns name : String) (b : SecretBinding)
    (hkey : cache.SplitMetaNamespaceKey key = Except.ok (ns, name))
    (hget : secretBindingLister env c.world.store ns name = Except.ok b) :
    (reconcileSecretBindingKey env control key c).1 = none ∧
    (reconcileSecretBindingKey env control key c).2.world
      = (control.ReconcileSecretBinding b key c.world).2 ∧
    (reconcileSecretBindingKey env control key c).2.secretBindingQueue.queue
      = c.secretBindingQueue.queue ∧
    (reconcileSecretBindingKey env control key c).2.secretBindingQueue.waiting
      = c.secretBindingQueue.waiting ++
        (if (control.ReconcileSecretBinding b key c.world).1 ≠ none then
          [(key, time.Minute)] else []) := by
  by_cases herr : (control.ReconcileSecretBinding b key c.world).1 = none
  · simp [reconcileSecretBindingKey, hkey, hget, herr]
  · have hpos : ¬ time.Minute ≤ 0 := by decide
    simp [reconcileSecretBindingKey, hkey, hget, herr, WorkQueue.AddAfter, hpos]

/-- Witness for C9: the blocked deletion of `exDeleting` is re-enqueued. -/
theorem reconcileKey_requeues_iff_error_witness :
    (reconcileSecretBindingKey exEnvBlocked (NewDefaultControl exEnvBlocked) "garden/b1"
      exController).2.secretBindingQueue.waiting
      = exController.secretBindingQueue.waiting ++
        (if ((NewDefaultControl exEnvBlocked).ReconcileSecretBinding exDeleting "garden/b1"
            exController.world).1 ≠ none then
          [("garden/b1", time.Minute)] else []) :=
  (reconcileKey_requeues_iff_error exEnvBlocked (NewDefaultControl exEnvBlocked) "garden/b1"
    exController "garden" "b1" exDeleting rfl rfl).2.2.2

/-- C10, as stated, fails: with the lister unreachable the lookup of `garden/b1`
fails with an error other than NotFound, and `reconcileSecretBindingKey` hands that
error back with the queue untouched, whereas a failure of `ReconcileSecretBinding`
for the same key puts `(key, time.Minute)` among the waiting keys. -/
theorem lookup_failure_not_requeued :
    secretBindingLister exEnvListerDown exController.world.store "garden" "b1"
      = Except.error (Error.other "connection refused") ∧
    reconcileSecretBindingKey exEnvListerDown (NewDefaultControl exEnvListerDown) "garden/b1"
      exController = (some (Error.other "connection refused"), exController) ∧
    exController.secretBindingQueue.waiting = [] ∧
    (reconcileSecretBindingKey exEnvBlocked (NewDefaultControl exEnvBlocked) "garden/b1"
      exController).2.secretBindingQueue.waiting = [("garden/b1", time.Minute)] := by
  refine ⟨rfl, rfl, rfl, rfl⟩

/-- C10, amended: when the lookup of the key's SecretBinding fails with an error
other than NotFound, `reconcileSecretBindingKey` returns that error to its caller
and changes nothing itself; in particular it schedules no re-enqueue. -/
theorem reconcileKey_lookup_failure_returned (env : Env) (control : ControlInterface)
    (key : String) (c : Controller) (ns name : String) (err : Error)
    (hkey : cache.SplitMetaNamespaceKey key = Except.ok (ns, name))
    (hget : secretBindingLister env c.world.store ns name = Except.error err)
    (hne : err ≠ Error.notFound) :
    reconcileSecretBindingKey env control key c = (some err, c) := by
  have h1 : apierrors.IsNotFound (some err) = false := by
    cases h : apierrors.IsNotFound (some err)
    · rfl
    · exact absurd ((isNotFound_some err).mp h) hne
  simp [reconcileSecretBindingKey, hkey, hget, h1]

/-- Witness for the amended C10: the lister is unreachable. -/
theorem reconcileKey_lookup_failure_returned_witness :
    reconcileSecretBindingKey exEnvListerDown (NewDefaultControl exEnvListerDown) "garden/b1"
      exController = (some (Error.other "connection refused"), exController) :=
  reconcileKey_lookup_failure_returned exEnvListerDown (NewDefaultControl exEnvListerDown)
    "garden/b1" exController "garden" "b1" (Error.other "connection refused") rfl rfl
    (by decide)

/-! ## The path of a live binding -/

theorem ensureFinalizer_cases (env : Env) (obj : Object) (finalizer : String) (w : World) :
    (finalizer ∈ obj.GetFinalizers ∧
      controllerutils.EnsureFinalizer env obj finalizer w = (none, w)) ∨
    (finalizer ∉ obj.GetFinalizers ∧
      controllerutils.EnsureFinalizer env obj finalizer w =
        Update env (obj.SetFinalizers (sets.UnsortedList
          (sets.Insert (sets.NewString obj.GetFinalizers) finalizer))) w) := by
  unfold controllerutils.EnsureFinalizer
  by_cases h : finalizer ∈ obj.GetFinalizers
  · left
    exact ⟨h, by rw [if_pos ((has_newString _ _).mpr h)]⟩
  · right
    refine ⟨h, ?_⟩
    rw [if_neg]
    intro hh
    exact h ((has_newString _ _).mp hh)

/-- Ensuring a finalizer on a SecretBinding leaves the stored Secrets alone. -/
theorem ensureFinalizer_secretBinding_secrets (env : Env) (b : SecretBinding)
    (finalizer : String) (w : World) :
    (controllerutils.EnsureFinalizer env (Object.secretBinding b) finalizer w).2.store.secrets
      = w.store.secrets := by
  rcases ensureFinalizer_cases env (Object.secretBinding b) finalizer w with ⟨_, h⟩ | ⟨_, h⟩
  · rw [h]
  · rw [h]; exact update_secretBinding_secrets env _ w

/-- Ensuring a finalizer on a Secret leaves the stored SecretBindings alone. -/
theorem ensureFinalizer_secret_secretBindings (env : Env) (s : Secret)
    (finalizer : String) (w : World) :
    (controllerutils.EnsureFinalizer env (Object.secret s) finalizer
      w).2.store.secretBindings = w.store.secretBindings := by
  rcases ensureFinalizer_cases env (Object.secret s) finalizer w with ⟨_, h⟩ | ⟨_, h⟩
  · rw [h]
  · rw [h]; exact update_secret_secretBindings env _ w

theorem secretLister_congr (env : Env) (st1 st2 : Store) (h : st1.secrets = st2.secrets)
    (ns name : String) : secretLister env st1 ns name = secretLister env st2 ns name := by
  unfold secretLister
  rw [getSecret_congr st1 st2 h]

/-- The SecretBinding stored after its finalizer was ensured: nothing was removed
from its finalizers, and nothing but `finalizer` was added. -/
theorem ensureFinalizer_secretBinding_stored (env : Env) (obj : SecretBinding)
    (finalizer : String) (w : World)
    (hobj : w.store.getSecretBinding obj.Namespace obj.Name = some obj) :
    ∃ b2, (controllerutils.EnsureFinalizer env (Object.secretBinding obj) finalizer
        w).2.store.getSecretBinding obj.Namespace obj.Name = some b2 ∧
      (∀ t, t ∈ obj.Finalizers → t ∈ b2.Finalizers) ∧
      (∀ t, t ∈ b2.Finalizers → t ∈ obj.Finalizers ∨ t = finalizer) ∧
      ((controllerutils.EnsureFinalizer env (Object.secretBinding obj) finalizer w).1 = none →
        finalizer ∈ b2.Finalizers) := by
  rcases ensureFinalizer_cases env (Object.secretBinding obj) finalizer w with
    ⟨hin, h⟩ | ⟨_, h⟩
  · rw [h]
    exact ⟨obj, hobj, fun _ ht => ht, fun _ ht => Or.inl ht, fun _ => hin⟩
  · rw [h, update_store, update_fst]
    cases hu : updateResult env w.store ((Object.secretBinding obj).SetFinalizers
        (sets.UnsortedList (sets.Insert
          (sets.NewString (Object.secretBinding obj).GetFinalizers) finalizer))) with
    | some e =>
      refine ⟨obj, ?_, fun _ ht => ht, fun _ ht => Or.inl ht, ?_⟩
      · simpa using hobj
      · intro hc; cases hc
    | none =>
      refine ⟨{ obj with
        Finalizers := sets.UnsortedList
          (sets.Insert (sets.NewString obj.Finalizers) finalizer) }, ?_, ?_, ?_, ?_⟩
      · have hp := getSecretBinding_putSecretBinding w.store { obj with
          Finalizers := sets.UnsortedList
            (sets.Insert (sets.NewString obj.Finalizers) finalizer) }
        simp only [hobj, Option.map_some'] at hp
        simpa [Store.put, Object.SetFinalizers, Object.GetFinalizers] using hp
      · intro t ht
        exact (mem_insert_newString _ _ _).mpr (Or.inl ht)
      · intro t ht
        exact (mem_insert_newString _ _ _).mp ht
      · intro _
        exact (mem_insert_newString _ _ _).mpr (Or.inr rfl)

/-- The Secret stored after its finalizer was ensured. -/
theorem ensureFinalizer_secret_stored (env : Env) (secret : Secret)
    (finalizer : String) (w : World)
    (hsec : w.store.getSecret secret.Namespace secret.Name = some secret) :
    ∃ s2, (controllerutils.EnsureFinalizer env (Object.secret secret) finalizer
        w).2.store.getSecret secret.Namespace secret.Name = some s2 ∧
      (∀ t, t ∈ secret.Finalizers → t ∈ s2.Finalizers) ∧
      (∀ t, t ∈ s2.Finalizers → t ∈ secret.Finalizers ∨ t = finalizer) ∧
      ((controllerutils.EnsureFinalizer env (Object.secret secret) finalizer w).1 = none →
        finalizer ∈ s2.Finalizers) := by
  rcases ensureFinalizer_cases env (Object.secret secret) finalizer w with
    ⟨hin, h⟩ | ⟨_, h⟩
  · rw [h]
    exact ⟨secret, hsec, fun _ ht => ht, fun _ ht => Or.inl ht, fun _ => hin⟩
  · rw [h, update_store, update_fst]
    cases hu : updateResult env w.store ((Object.secret secret).SetFinalizers
        (sets.UnsortedList (sets.Insert
          (sets.NewString (Object.secret secret).GetFinalizers) finalizer))) with
    | some e =>
      refine ⟨secret, ?_, fun _ ht => ht, fun _ ht => Or.inl ht, ?_⟩
      · simpa using hsec
      · intro hc; cases hc
    | none =>
      refine ⟨{ secret with
        Finalizers := sets.UnsortedList
          (sets.Insert (sets.NewString secret.Finalizers) finalizer) }, ?_, ?_, ?_, ?_⟩
      · have hp := getSecret_putSecret w.store { secret with
          Finalizers := sets.UnsortedList
            (sets.Insert (sets.NewString secret.Finalizers) finalizer) }
        simp only [hsec, Option.map_some'] at hp
        simpa [Store.put, Object.SetFinalizers, Object.GetFinalizers] using hp
      · intro t ht
        exact (mem_insert_newString _ _ _).mpr (Or.inl ht)
      · intro t ht
        exact (mem_insert_newString _ _ _).mp ht
      · intro _
        exact (mem_insert_newString _ _ _).mpr (Or.inr rfl)

/-- The calls made while ensuring a finalizer: at most one update, of the same
object with no finalizer removed. -/
theorem ensureFinalizer_calls (env : Env) (obj : Object) (finalizer : String) (w : World) :
    ∃ cs, (controllerutils.EnsureFinalizer env obj finalizer w).2.calls = w.calls ++ cs ∧
      ∀ c, c ∈ cs → ∃ o, c = Call.update o ∧
        (∀ t, t ∈ obj.GetFinalizers → t ∈ o.GetFinalizers) ∧
        ((∃ b, obj = Object.secretBinding b) ↔ (∃ b, o = Object.secretBinding b)) := by
  rcases ensureFinalizer_cases env obj finalizer w with ⟨_, h⟩ | ⟨_, h⟩
  · exact ⟨[], by rw [h]; simp, by simp⟩
  · refine ⟨[Call.update (obj.SetFinalizers (sets.UnsortedList
      (sets.Insert (sets.NewString obj.GetFinalizers) finalizer)))], ?_, ?_⟩
    · rw [h, update_calls]
    · intro c hc
      simp only [List.mem_singleton] at hc
      refine ⟨_, hc, ?_, ?_⟩
      · intro t ht
        cases obj with
        | secretBinding b => exact (mem_insert_newString _ _ _).mpr (Or.inl ht)
        | secret s => exact (mem_insert_newString _ _ _).mpr (Or.inl ht)
      · cases obj with
        | secretBinding b => simp [Object.SetFinalizers]
        | secret s => simp [Object.SetFinalizers]

/-- C7: for a stored SecretBinding without deletion marker whose Secret is found,
when both calls of `EnsureFinalizer` succeed, `ReconcileSecretBinding` returns nil and
its effect is that of ensuring `GardenerName` on the SecretBinding first and
`ExternalGardenerName` on the Secret second.  Afterwards the stored SecretBinding
carries `GardenerName` and the stored Secret carries `ExternalGardenerName`, neither
has lost a token, and every call made is an update that keeps all tokens of its
object: the Dependency Resolver is not run and no event is recorded. -/
theorem reconcile_active_ensures_both (env : Env) (obj : SecretBinding) (key : String)
    (w : World) (secret : Secret)
    (hlive : obj.DeletionTimestamp = none)
    (hobj : w.store.getSecretBinding obj.Namespace obj.Name = some obj)
    (hget : secretLister env w.store obj.SecretRef.Namespace obj.SecretRef.Name
      = Except.ok secret)
    (hB : (controllerutils.EnsureFinalizer env (Object.secretBinding obj) env.GardenerName
      w).1 = none)
    (hS : (controllerutils.EnsureFinalizer env (Object.secret secret)
      env.ExternalGardenerName
      (controllerutils.EnsureFinalizer env (Object.secretBinding obj) env.GardenerName
        w).2).1 = none) :
    ReconcileSecretBinding env obj key w =
      (none, (controllerutils.EnsureFinalizer env (Object.secret secret)
        env.ExternalGardenerName
        (controllerutils.EnsureFinalizer env (Object.secretBinding obj) env.GardenerName
          w).2).2) ∧
    (∃ b2, (ReconcileSecretBinding env obj key w).2.store.getSecretBinding obj.Namespace
        obj.Name = some b2 ∧ env.GardenerName ∈ b2.Finalizers ∧
      ∀ t, t ∈ obj.Finalizers → t ∈ b2.Finalizers) ∧
    (∃ s2, (ReconcileSecretBinding env obj key w).2.store.getSecret obj.SecretRef.Namespace
        obj.SecretRef.Name = some s2 ∧ env.ExternalGardenerName ∈ s2.Finalizers ∧
      ∀ t, t ∈ secret.Finalizers → t ∈ s2.Finalizers) ∧
    (∀ c, c ∈ (ReconcileSecretBinding env obj key w).2.callsSince w →
      (∃ b2, c = Call.update (Object.secretBinding b2) ∧
        ∀ t, t ∈ obj.Finalizers → t ∈ b2.Finalizers) ∨
      (∃ s2, c = Call.update (Object.secret s2) ∧
        ∀ t, t ∈ secret.Finalizers → t ∈ s2.Finalizers)) := by
  obtain ⟨k, hk⟩ := metaNamespaceKeyFunc_ok obj
  obtain ⟨_, hst, hns, hname⟩ := secretLister_ok _ _ _ _ _ hget
  have hget1 : secretLister env (controllerutils.EnsureFinalizer env
      (Object.secretBinding obj) env.GardenerName w).2.store obj.SecretRef.Namespace
      obj.SecretRef.Name = Except.ok secret := by
    rw [secretLister_congr env _ w.store (ensureFinalizer_secretBinding_secrets env _ _ w)]
    exact hget
  have hR : ReconcileSecretBinding env obj key w =
      (none, (controllerutils.EnsureFinalizer env (Object.secret secret)
        env.ExternalGardenerName
        (controllerutils.EnsureFinalizer env (Object.secretBinding obj) env.GardenerName
          w).2).2) := by
    simp [ReconcileSecretBinding, hk, hlive, hB, hget1, hS]
  refine ⟨hR, ?_, ?_, ?_⟩
  · obtain ⟨b2, hb2, hkeep, _, htok⟩ :=
      ensureFinalizer_secretBinding_stored env obj env.GardenerName w hobj
    refine ⟨b2, ?_, htok hB, hkeep⟩
    rw [hR]
    dsimp only
    rw [getSecretBinding_congr _ _ (ensureFinalizer_secret_secretBindings env _ _ _)]
    exact hb2
  · have hsec : (controllerutils.EnsureFinalizer env (Object.secretBinding obj)
        env.GardenerName w).2.store.getSecret secret.Namespace secret.Name = some secret := by
      rw [getSecret_congr _ w.store (ensureFinalizer_secretBinding_secrets env _ _ w), hns,
        hname]
      exact hst
    obtain ⟨s2, hs2, hkeep, _, htok⟩ :=
      ensureFinalizer_secret_stored env secret env.ExternalGardenerName _ hsec
    refine ⟨s2, ?_, htok hS, hkeep⟩
    rw [hR]
    dsimp only
    rw [← hns, ← hname]
    exact hs2
  · obtain ⟨cs1, hc1, hcs1⟩ :=
      ensureFinalizer_calls env (Object.secretBinding obj) env.GardenerName w
    obtain ⟨cs2, hc2, hcs2⟩ :=
      ensureFinalizer_calls env (Object.secret secret) env.ExternalGardenerName
        (controllerutils.EnsureFinalizer env (Object.secretBinding obj) env.GardenerName w).2
    have hcalls : (ReconcileSecretBinding env obj key w).2.calls = w.calls ++ (cs1 ++ cs2) := by
      rw [hR]
      dsimp only
      rw [hc2, hc1, List.append_assoc]
    rw [callsSince_append _ w _ hcalls]
    intro c hc
    rcases List.mem_append.mp hc with h | h
    · obtain ⟨o, ho, hkeep, hkind⟩ := hcs1 c h
      obtain ⟨b2, hb2⟩ := hkind.mp ⟨obj, rfl⟩
      subst hb2
      exact Or.inl ⟨b2, ho, hkeep⟩
    · obtain ⟨o, ho, hkeep, hkind⟩ := hcs2 c h
      cases o with
      | secretBinding b2 =>
        obtain ⟨b, hb⟩ := hkind.mpr ⟨b2, rfl⟩
        cases hb
      | secret s2 => exact Or.inr ⟨s2, ho, hkeep⟩

/-- Witness for C7: the first reconciliation of the fresh `exFresh`. -/
theorem reconcile_active_ensures_both_witness :
    (ReconcileSecretBinding exEnv exFresh "garden/b4" exWorldFresh).1 = none ∧
    (ReconcileSecretBinding exEnv exFresh "garden/b4" exWorldFresh).2.callsSince exWorldFresh
      = [Call.update (Object.secretBinding { exFresh with Finalizers := ["gardener"] }),
         Call.update (Object.secret
           { exPlain with Finalizers := ["gardener.cloud/gardener"] })] ∧
    ∃ b2, (ReconcileSecretBinding exEnv exFresh "garden/b4"
        exWorldFresh).2.store.getSecretBinding exFresh.Namespace exFresh.Name = some b2 ∧
      exEnv.GardenerName ∈ b2.Finalizers ∧ ∀ t, t ∈ exFresh.Finalizers → t ∈ b2.Finalizers :=
  ⟨rfl, rfl,
    (reconcile_active_ensures_both exEnv exFresh "garden/b4" exWorldFresh exPlain
      rfl rfl rfl rfl rfl).2.1⟩

/-- C8, as stated, fails: the fresh `exDangling` has no finalizer and references a
Secret that does not exist; its reconciliation returns an error, yet the
SecretBinding is stored with `GardenerName` added. -/
theorem dangling_binding_gains_finalizer :
    exDangling.DeletionTimestamp = none ∧
    exWorldFresh.store.getSecretBinding "garden" "b3" = some exDangling ∧
    exWorldFresh.store.getSecret "garden" "missing" = none ∧
    (ReconcileSecretBinding exEnv exDangling "garden/b3" exWorldFresh).1
      = some Error.notFound ∧
    (ReconcileSecretBinding exEnv exDangling "garden/b3"
        exWorldFresh).2.store.getSecretBinding "garden" "b3"
      = some { exDangling with Finalizers := ["gardener"] } ∧
    exDangling.Finalizers = [] := by
  refine ⟨rfl, rfl, rfl, rfl, rfl, rfl⟩

/-- C8, amended: for a stored SecretBinding without deletion marker whose Secret
lookup fails, `ReconcileSecretBinding` returns a non-nil error, writes no Secret,
and removes nothing from the finalizers of the SecretBinding: afterwards the stored
SecretBinding has every token it had, and at most `GardenerName` in addition (added
by the ensuring step that precedes the lookup). -/
theorem reconcile_active_secret_unavailable (env : Env) (obj : SecretBinding)
    (key : String) (w : World) (err : Error)
    (hlive : obj.DeletionTimestamp = none)
    (hobj : w.store.getSecretBinding obj.Namespace obj.Name = some obj)
    (hget : secretLister env w.store obj.SecretRef.Namespace obj.SecretRef.Name
      = Except.error err) :
    (ReconcileSecretBinding env obj key w).1 ≠ none ∧
    (∃ b2, (ReconcileSecretBinding env obj key w).2.store.getSecretBinding obj.Namespace
        obj.Name = some b2 ∧
      (∀ t, t ∈ obj.Finalizers → t ∈ b2.Finalizers) ∧
      (∀ t, t ∈ b2.Finalizers → t ∈ obj.Finalizers ∨ t = env.GardenerName)) ∧
    (ReconcileSecretBinding env obj key w).2.store.secrets = w.store.secrets := by
  obtain ⟨k, hk⟩ := metaNamespaceKeyFunc_ok obj
  have hget1 : secretLister env (controllerutils.EnsureFinalizer env
      (Object.secretBinding obj) env.GardenerName w).2.store obj.SecretRef.Namespace
      obj.SecretRef.Name = Except.error err := by
    rw [secretLister_congr env _ w.store (ensureFinalizer_secretBinding_secrets env _ _ w)]
    exact hget
  obtain ⟨b2, hb2, hkeep, hadd, _⟩ :=
    ensureFinalizer_secretBinding_stored env obj env.GardenerName w hobj
  have hR : (ReconcileSecretBinding env obj key w).1 ≠ none ∧
      (ReconcileSecretBinding env obj key w).2 =
        (controllerutils.EnsureFinalizer env (Object.secretBinding obj)
          env.GardenerName w).2 := by
    by_cases h1 : (controllerutils.EnsureFinalizer env (Object.secretBinding obj)
        env.GardenerName w).1 = none
    · simp [ReconcileSecretBinding, hk, hlive, h1, hget1]
    · simp [ReconcileSecretBinding, hk, hlive, h1]
  refine ⟨hR.1, ⟨b2, ?_, hkeep, hadd⟩, ?_⟩
  · rw [hR.2]; exact hb2
  · rw [hR.2]; exact ensureFinalizer_secretBinding_secrets env _ _ w

/-- Witness for the amended C8: the dangling reference of `exDangling`. -/
theorem reconcile_active_secret_unavailable_witness :
    (ReconcileSecretBinding exEnv exDangling "garden/b3" exWorldFresh).1 ≠ none ∧
    (∃ b2, (ReconcileSecretBinding exEnv exDangling "garden/b3"
        exWorldFresh).2.store.getSecretBinding exDangling.Namespace exDangling.Name
        = some b2 ∧
      (∀ t, t ∈ exDangling.Finalizers → t ∈ b2.Finalizers) ∧
      (∀ t, t ∈ b2.Finalizers → t ∈ exDangling.Finalizers ∨ t = exEnv.GardenerName)) ∧
    (ReconcileSecretBinding exEnv exDangling "garden/b3" exWorldFresh).2.store.secrets
      = exWorldFresh.store.secrets :=
  reconcile_active_secret_unavailable exEnv exDangling "garden/b3" exWorldFresh
    Error.notFound rfl rfl rfl

/-! ## Removing a finalizer that is absent -/

/-- C12, as stated, fails: the Secret of `exWorldBare` exists and does not carry the
external token, and the accepted deletion of `exDeleting` still sends an update
for it. -/
theorem absent_token_secret_still_updated :
    exDeleting.DeletionTimestamp ≠ none ∧ exEnv.GardenerName ∈ exDeleting.Finalizers ∧
    exEnv.DetermineShootAssociations exDeleting = Except.ok [] ∧
    secretLister exEnv exWorldBare.store exDeleting.SecretRef.Namespace
      exDeleting.SecretRef.Name = Except.ok exSecretBare ∧
    exEnv.ExternalGardenerName ∉ exSecretBare.Finalizers ∧
    Call.update (Object.secret exSecretBare) ∈
      (ReconcileSecretBinding exEnv exDeleting "garden/b1" exWorldBare).2.callsSince
        exWorldBare := by
  refine ⟨by decide, by decide, rfl, rfl, by decide, by decide⟩

/-- C12, amended: the removal always writes.  With the deletion marker set, the
controller's finalizer present and an empty association set, for every Secret
that is found and does not carry `ExternalGardenerName`, `ReconcileSecretBinding`
issues exactly one update call for the Secret, right after the run of the
Dependency Resolver; the finalizers it writes have the same members as before. -/
theorem reconcile_release_rewrites_bare_secret (env : Env) (obj : SecretBinding)
    (key : String) (w : World) (secret : Secret)
    (hdel : obj.DeletionTimestamp ≠ none)
    (hfin : env.GardenerName ∈ obj.Finalizers)
    (hres : env.DetermineShootAssociations obj = Except.ok [])
    (hget : secretLister env w.store obj.SecretRef.Namespace obj.SecretRef.Name
      = Except.ok secret)
    (habs : env.ExternalGardenerName ∉ secret.Finalizers) :
    ∃ s2 rest,
      (ReconcileSecretBinding env obj key w).2.callsSince w =
        Call.determineShootAssociations obj :: Call.update (Object.secret s2) :: rest ∧
      (∀ s, Call.update (Object.secret s) ∉ rest) ∧
      s2.Namespace = secret.Namespace ∧ s2.Name = secret.Name ∧
      (∀ t, t ∈ s2.Finalizers ↔ t ∈ secret.Finalizers) := by
  have hmem : ∀ t, t ∈ sets.UnsortedList
      (sets.Delete (sets.NewString secret.Finalizers) env.ExternalGardenerName) ↔
      t ∈ secret.Finalizers := by
    intro t
    rw [mem_delete_newString]
    constructor
    · intro h; exact h.1
    · intro h; exact ⟨h, fun he => habs (he ▸ h)⟩
  rw [reconcile_ready_lookup_ok env obj key w secret hdel hfin hres hget]
  split
  · refine ⟨{ secret with
        Finalizers := sets.UnsortedList
          (sets.Delete (sets.NewString secret.Finalizers) env.ExternalGardenerName) },
      [Call.update (Object.secretBinding { obj with
        Finalizers := sets.UnsortedList
          (sets.Delete (sets.NewString obj.Finalizers) env.GardenerName) })], ?_, ?_, rfl, rfl,
      hmem⟩
    · apply callsSince_append
      dsimp only
      rw [update_calls, update_calls, record_calls, List.append_assoc, List.append_assoc]
      rfl
    · intro s hs
      simp at hs
  · refine ⟨{ secret with
        Finalizers := sets.UnsortedList
          (sets.Delete (sets.NewString secret.Finalizers) env.ExternalGardenerName) },
      [], ?_, ?_, rfl, rfl, hmem⟩
    · apply callsSince_append
      rw [update_calls, record_calls, List.append_assoc]
      rfl
    · intro s hs
      simp at hs

/-- Witness for the amended C12: the bare Secret of `exWorldBare` is written again. -/
theorem reconcile_release_rewrites_bare_secret_witness :
    exEnv.ExternalGardenerName ∉ exSecretBare.Finalizers ∧
    ∃ s2 rest,
      (ReconcileSecretBinding exEnv exDeleting "garden/b1" exWorldBare).2.callsSince
          exWorldBare =
        Call.determineShootAssociations exDeleting :: Call.update (Object.secret s2) :: rest ∧
      (∀ s, Call.update (Object.secret s) ∉ rest) ∧
      s2.Namespace = exSecretBare.Namespace ∧ s2.Name = exSecretBare.Name ∧
      (∀ t, t ∈ s2.Finalizers ↔ t ∈ exSecretBare.Finalizers) :=
  ⟨by decide,
    reconcile_release_rewrites_bare_secret exEnv exDeleting "garden/b1" exWorldBare
      exSecretBare (by decide) (by decide) rfl rfl (by decide)⟩

/-! ## The event of a blocked deletion -/

theorem intercalate_go_starts (s : String) (l : List String) :
    ∀ acc : String, List.IsPrefix acc.data (String.intercalate.go acc s l).data := by
  induction l with
  | nil => intro acc; exact List.prefix_refl _
  | cons x xs ih =>
    intro acc
    have h := ih (acc ++ s ++ x)
    simp only [String.intercalate.go]
    refine List.IsPrefix.trans ?_ h
    simp only [String.data_append, List.append_assoc]
    exact List.prefix_append _ _

theorem intercalate_go_contains (s : String) (l : List String) (a : String) (ha : a ∈ l) :
    ∀ acc : String, List.IsInfix a.data (String.intercalate.go acc s l).data := by
  induction l with
  | nil => cases ha
  | cons x xs ih =>
    intro acc
    simp only [String.intercalate.go]
    rcases List.mem_cons.mp ha with rfl | hxs
    · refine List.IsInfix.trans ?_ (intercalate_go_starts s xs (acc ++ s ++ a)).isInfix
      simp only [String.data_append]
      exact (List.suffix_append _ _).isInfix
    · exact ih hxs _

/-- Every string of the list occurs in its `%v` rendering. -/
theorem formatStrings_lists (shoots : List String) (a : String) (ha : a ∈ shoots) :
    List.IsInfix a.data (formatStrings shoots).data := by
  have hin : List.IsInfix a.data (" ".intercalate shoots).data := by
    cases shoots with
    | nil => cases ha
    | cons x xs =>
      simp only [String.intercalate]
      rcases List.mem_cons.mp ha with rfl | hxs
      · exact (intercalate_go_starts " " xs a).isInfix
      · exact intercalate_go_contains " " xs a hxs x
  unfold formatStrings
  simp only [String.data_append]
  exact List.IsInfix.trans hin
    ((List.suffix_append _ _).isInfix.trans (List.prefix_append _ _).isInfix)

/-- The calls of the path of a live binding are updates. -/
theorem reconcile_active_calls (env : Env) (obj : SecretBinding) (key : String) (w : World)
    (hlive : obj.DeletionTimestamp = none) :
    ∃ cs, (ReconcileSecretBinding env obj key w).2.calls = w.calls ++ cs ∧
      ∀ c, c ∈ cs → ∃ o, c = Call.update o := by
  obtain ⟨k, hk⟩ := metaNamespaceKeyFunc_ok obj
  obtain ⟨cs1, hc1, hcs1⟩ :=
    ensureFinalizer_calls env (Object.secretBinding obj) env.GardenerName w
  have h1 : ∀ c, c ∈ cs1 → ∃ o, c = Call.update o := by
    intro c hc
    obtain ⟨o, ho, _⟩ := hcs1 c hc
    exact ⟨o, ho⟩
  by_cases hB : (controllerutils.EnsureFinalizer env (Object.secretBinding obj)
      env.GardenerName w).1 = none
  · cases hget : secretLister env (controllerutils.EnsureFinalizer env
        (Object.secretBinding obj) env.GardenerName w).2.store obj.SecretRef.Namespace
        obj.SecretRef.Name with
    | error err =>
      refine ⟨cs1, ?_, h1⟩
      simp [ReconcileSecretBinding, hk, hlive, hB, hget, hc1]
    | ok secret =>
      obtain ⟨cs2, hc2, hcs2⟩ :=
        ensureFinalizer_calls env (Object.secret secret) env.ExternalGardenerName
          (controllerutils.EnsureFinalizer env (Object.secretBinding obj) env.GardenerName
            w).2
      refine ⟨cs1 ++ cs2, ?_, ?_⟩
      · have hR : (ReconcileSecretBinding env obj key w).2 =
            (controllerutils.EnsureFinalizer env (Object.secret secret)
              env.ExternalGardenerName
              (controllerutils.EnsureFinalizer env (Object.secretBinding obj)
                env.GardenerName w).2).2 := by
          simp only [ReconcileSecretBinding, hk, hlive, hB, hget]
          simp
          split <;> rfl
        rw [hR, hc2, hc1, List.append_assoc]
      · intro c hc
        rcases List.mem_append.mp hc with h | h
        · exact h1 c h
        · obtain ⟨o, ho, _⟩ := hcs2 c h
          exact ⟨o, ho⟩
  · refine ⟨cs1, ?_, h1⟩
    simp [ReconcileSecretBinding, hk, hlive, hB, hc1]

/-- C13: `ReconcileSecretBinding` records an event exactly when the deletion is
blocked.  With the deletion marker set, the controller's finalizer present and a
non-empty association set returned by the Dependency Resolver, the calls made are
the resolver run and one event on the SecretBinding, of type Normal and reason
`EventResourceReferenced`, whose message contains every Shoot of the association
set, and the returned error is non-nil.  In every other case no event is among
the calls. -/
theorem reconcile_event_iff_blocked (env : Env) (obj : SecretBinding) (key : String)
    (w : World) :
    (∀ shoots, obj.DeletionTimestamp ≠ none → env.GardenerName ∈ obj.Finalizers →
      env.DetermineShootAssociations obj = Except.ok shoots → shoots ≠ [] →
      ∃ message,
        (ReconcileSecretBinding env obj key w).2.callsSince w =
          [Call.determineShootAssociations obj,
            Call.event obj corev1.EventTypeNormal env.EventResourceReferenced message] ∧
        (∀ s, s ∈ shoots → List.IsInfix s.data message.data) ∧
        (ReconcileSecretBinding env obj key w).1 ≠ none) ∧
    (¬ (obj.DeletionTimestamp ≠ none ∧ env.GardenerName ∈ obj.Finalizers ∧
        ∃ shoots, env.DetermineShootAssociations obj = Except.ok shoots ∧ shoots ≠ []) →
      ∀ o eventtype reason message,
        Call.event o eventtype reason message ∉
          (ReconcileSecretBinding env obj key w).2.callsSince w) := by
  obtain ⟨k, hk⟩ := metaNamespaceKeyFunc_ok obj
  constructor
  · intro shoots hdel hfin hres hne
    have hhas := (has_newString obj.Finalizers env.GardenerName).mpr hfin
    have hlen : shoots.length ≠ 0 := fun h => hne (List.length_eq_zero.mp h)
    refine ⟨"Can't delete SecretBinding, because the following Shoots are still referencing it: "
      ++ formatStrings shoots, ?_, ?_, ?_⟩
    · apply callsSince_append
      simp [ReconcileSecretBinding, hk, hdel, hhas, hres, hlen, hne, World.record]
    · intro s hs
      simp only [String.data_append]
      exact (formatStrings_lists shoots s hs).trans (List.suffix_append _ _).isInfix
    · simp [ReconcileSecretBinding, hk, hdel, hhas, hres, hlen, hne]
  · intro hnb o eventtype reason message
    by_cases hdel : obj.DeletionTimestamp = none
    · obtain ⟨cs, hcs, hupd⟩ := reconcile_active_calls env obj key w hdel
      rw [callsSince_append _ w _ hcs]
      intro hmem
      obtain ⟨o2, ho2⟩ := hupd _ hmem
      cases ho2
    · by_cases hfin : env.GardenerName ∈ obj.Finalizers
      · have hhas := (has_newString obj.Finalizers env.GardenerName).mpr hfin
        cases hres : env.DetermineShootAssociations obj with
        | error err =>
          rw [callsSince_append _ w [Call.determineShootAssociations obj]
            (by simp [ReconcileSecretBinding, hk, hdel, hhas, hres, World.record])]
          simp
        | ok shoots =>
          have hnil : shoots = [] := by
            by_contra hne
            exact hnb ⟨hdel, hfin, shoots, hres, hne⟩
          subst hnil
          cases hget : secretLister env w.store obj.SecretRef.Namespace
              obj.SecretRef.Name with
          | error err =>
            rw [reconcile_ready_lookup_error env obj key w err hdel hfin hres hget]
            split
            · rw [callsSince_append _ w _
                (by rw [update_calls, record_calls, List.append_assoc])]
              simp
            · rw [callsSince_append _ w _ (record_calls w _)]
              simp
          | ok secret =>
            rw [reconcile_ready_lookup_ok env obj key w secret hdel hfin hres hget]
            split
            · rw [callsSince_append _ w _
                (by rw [update_calls, update_calls, record_calls, List.append_assoc,
                  List.append_assoc])]
              simp
            · rw [callsSince_append _ w _
                (by rw [update_calls, record_calls, List.append_assoc])]
              simp
      · have hhas : sets.Has (sets.NewString obj.Finalizers) env.GardenerName = false := by
          cases h : sets.Has (sets.NewString obj.Finalizers) env.GardenerName
          · rfl
          · exact absurd ((has_newString _ _).mp h) hfin
        rw [callsSince_append _ w []
          (by simp [ReconcileSecretBinding, hk, hdel, hhas])]
        simp

/-- Witness for C13: the blocked deletion of `exDeleting` names `garden/shoot1`. -/
theorem reconcile_event_iff_blocked_witness :
    ∃ message,
      (ReconcileSecretBinding exEnvBlocked exDeleting "garden/b1" exWorld).2.callsSince exWorld =
        [Call.determineShootAssociations exDeleting,
          Call.event exDeleting corev1.EventTypeNormal exEnvBlocked.EventResourceReferenced
            message] ∧
      (∀ s, s ∈ ["garden/shoot1"] → List.IsInfix s.data message.data) ∧
      (ReconcileSecretBinding exEnvBlocked exDeleting "garden/b1" exWorld).1 ≠ none :=
  (reconcile_event_iff_blocked exEnvBlocked exDeleting "garden/b1" exWorld).1
    ["garden/shoot1"] (by decide) (by decide) rfl (by decide)

/-! ## Event handlers -/

/-- On a SecretBinding the key function of the handlers is the one
`ReconcileSecretBinding` calls. -/
theorem metaNamespaceKeyFuncAny_secretBinding (b : SecretBinding) :
    cache.MetaNamespaceKeyFuncAny (Interface.secretBinding b) = cache.MetaNamespaceKeyFunc b := by
  simp only [cache.MetaNamespaceKeyFuncAny, meta.Accessor, cache.MetaNamespaceKeyFunc]

/-- C14: `secretBindingUpdate(old, new)` is `secretBindingAdd(new)` whatever `old` is.
Each handler touches the queue only.  When the key function (`MetaNamespaceKeyFunc`
for add and update, `DeletionHandlingMetaNamespaceKeyFunc` for delete) returns a key,
the world and the waiting keys are as before and the key is pending afterwards:
the pending keys are the previous ones, in their order, followed by the key
unless it was pending already, so no other key is added or lost.  When the key
function fails the controller is returned as it was.  The key of a SecretBinding
with a namespace is `namespace/name`, and the key of a tombstone is the key it
carries. -/
theorem handlers_enqueue_key :
    (∀ oldObj newObj c, secretBindingUpdate oldObj newObj c = secretBindingAdd newObj c) ∧
    (∀ obj c key, cache.MetaNamespaceKeyFuncAny obj = Except.ok key →
      (secretBindingAdd obj c).world = c.world ∧
      (secretBindingAdd obj c).secretBindingQueue.waiting = c.secretBindingQueue.waiting ∧
      (secretBindingAdd obj c).secretBindingQueue.queue =
        (if key ∈ c.secretBindingQueue.queue then c.secretBindingQueue.queue
          else c.secretBindingQueue.queue ++ [key]) ∧
      key ∈ (secretBindingAdd obj c).secretBindingQueue.queue ∧
      (∀ k, k ∈ (secretBindingAdd obj c).secretBindingQueue.queue ↔
        k ∈ c.secretBindingQueue.queue ∨ k = key)) ∧
    (∀ obj c err, cache.MetaNamespaceKeyFuncAny obj = Except.error err →
      secretBindingAdd obj c = c) ∧
    (∀ obj c key, cache.DeletionHandlingMetaNamespaceKeyFunc obj = Except.ok key →
      (secretBindingDelete obj c).world = c.world ∧
      (secretBindingDelete obj c).secretBindingQueue.waiting
        = c.secretBindingQueue.waiting ∧
      (secretBindingDelete obj c).secretBindingQueue.queue =
        (if key ∈ c.secretBindingQueue.queue then c.secretBindingQueue.queue
          else c.secretBindingQueue.queue ++ [key]) ∧
      key ∈ (secretBindingDelete obj c).secretBindingQueue.queue ∧
      (∀ k, k ∈ (secretBindingDelete obj c).secretBindingQueue.queue ↔
        k ∈ c.secretBindingQueue.queue ∨ k = key)) ∧
    (∀ obj c err, cache.DeletionHandlingMetaNamespaceKeyFunc obj = Except.error err →
      secretBindingDelete obj c = c) ∧
    (∀ b : SecretBinding, 0 < b.Namespace.length →
      cache.MetaNamespaceKeyFuncAny (Interface.secretBinding b)
        = Except.ok (b.Namespace ++ "/" ++ b.Name) ∧
      cache.DeletionHandlingMetaNamespaceKeyFunc (Interface.secretBinding b)
        = Except.ok (b.Namespace ++ "/" ++ b.Name)) ∧
    (∀ key obj, cache.DeletionHandlingMetaNamespaceKeyFunc
      (Interface.deletedFinalStateUnknown key obj) = Except.ok key) := by
  have hadd : ∀ (q : WorkQueue) (key : String),
      (q.Add key).waiting = q.waiting ∧
      (q.Add key).queue = (if key ∈ q.queue then q.queue else q.queue ++ [key]) ∧
      key ∈ (q.Add key).queue ∧
      (∀ k, k ∈ (q.Add key).queue ↔ k ∈ q.queue ∨ k = key) := by
    intro q key
    by_cases h : key ∈ q.queue
    · have e : q.Add key = q := by
        unfold WorkQueue.Add
        rw [if_pos h]
      rw [e]
      refine ⟨rfl, by rw [if_pos h], h, fun k => ⟨Or.inl, ?_⟩⟩
      rintro (hk | rfl)
      · exact hk
      · exact h
    · have e : q.Add key = { q with queue := q.queue ++ [key] } := by
        unfold WorkQueue.Add
        rw [if_neg h]
      rw [e]
      refine ⟨rfl, by rw [if_neg h], by simp, fun k => by simp⟩
  refine ⟨fun _ _ _ => rfl, ?_, ?_, ?_, ?_, ?_, fun _ _ => rfl⟩
  · intro obj c key h
    have e : secretBindingAdd obj c =
        { c with secretBindingQueue := c.secretBindingQueue.Add key } := by
      simp only [secretBindingAdd, h]
    rw [e]
    exact ⟨rfl, hadd c.secretBindingQueue key⟩
  · intro obj c err h
    simp only [secretBindingAdd, h]
  · intro obj c key h
    have e : secretBindingDelete obj c =
        { c with secretBindingQueue := c.secretBindingQueue.Add key } := by
      simp only [secretBindingDelete, h]
    rw [e]
    exact ⟨rfl, hadd c.secretBindingQueue key⟩
  · intro obj c err h
    simp only [secretBindingDelete, h]
  · intro b hb
    have h1 : cache.MetaNamespaceKeyFuncAny (Interface.secretBinding b)
        = Except.ok (b.Namespace ++ "/" ++ b.Name) := by
      simp only [cache.MetaNamespaceKeyFuncAny, meta.Accessor]
      rw [if_pos hb]
    exact ⟨h1, h1⟩

/-- Witness for C14: an add or update notification for `exLive` and a delete
notification carrying its tombstone leave `garden/b2` as the only pending key of
the empty queue; a second add notification leaves it pending once; an add
notification carrying a tombstone is dropped. -/
theorem handlers_enqueue_key_witness :
    (secretBindingAdd (Interface.secretBinding exLive) exController).secretBindingQueue.queue
      = ["garden/b2"] ∧
    (secretBindingUpdate (Interface.secretBinding exDeleting) (Interface.secretBinding exLive)
      exController).secretBindingQueue.queue = ["garden/b2"] ∧
    (secretBindingDelete (Interface.deletedFinalStateUnknown "garden/b2" Interface.noMeta)
      exController).secretBindingQueue.queue = ["garden/b2"] ∧
    (secretBindingAdd (Interface.secretBinding exLive)
      (secretBindingAdd (Interface.secretBinding exLive)
        exController)).secretBindingQueue.queue = ["garden/b2"] ∧
    ("garden/b2" ∈ (secretBindingAdd (Interface.secretBinding exLive)
      exController).secretBindingQueue.queue) ∧
    secretBindingUpdate (Interface.secretBinding exDeleting) (Interface.secretBinding exLive)
      exController = secretBindingAdd (Interface.secretBinding exLive) exController ∧
    secretBindingAdd (Interface.deletedFinalStateUnknown "garden/b2" Interface.noMeta)
      exController = exController :=
  ⟨rfl, rfl, rfl, rfl,
    (handlers_enqueue_key.2.1 (Interface.secretBinding exLive) exController "garden/b2"
      rfl).2.2.2.1,
    handlers_enqueue_key.1 _ _ _,
    handlers_enqueue_key.2.2.1 _ exController (errors.New "object has no meta") rfl⟩

/-! ## Reconciling twice -/

theorem callsSince_self (w : World) : w.callsSince w = [] := by
  simp [World.callsSince]

/-- A deletion that is not accepted writes nothing. -/
theorem reconcile_not_accepted_writes_nothing (env : Env) (obj : SecretBinding)
    (key : String) (w : World)
    (hdel : obj.DeletionTimestamp ≠ none)
    (hfin : env.GardenerName ∈ obj.Finalizers)
    (hres : env.DetermineShootAssociations obj ≠ Except.ok []) :
    (ReconcileSecretBinding env obj key w).2.store = w.store ∧
    ∀ o, Call.update o ∉ (ReconcileSecretBinding env obj key w).2.callsSince w := by
  obtain ⟨k, hk⟩ := metaNamespaceKeyFunc_ok obj
  have hhas := (has_newString obj.Finalizers env.GardenerName).mpr hfin
  cases hr : env.DetermineShootAssociations obj with
  | error err =>
    simp [ReconcileSecretBinding, hk, hdel, hhas, hr, World.callsSince, World.record]
  | ok shoots =>
    have hne : shoots ≠ [] := by
      intro h
      rw [h] at hr
      exact hres hr
    have hlen : shoots.length ≠ 0 := fun h => hne (List.length_eq_zero.mp h)
    simp [ReconcileSecretBinding, hk, hdel, hhas, hr, hlen, hne, World.callsSince,
      World.record]

/-- A reconciliation of a settled SecretBinding leaves the store as it is and
issues no update. -/
theorem settled_writes_nothing (env : Env) (b : SecretBinding) (key : String) (w : World)
    (h : Settled env w.store b) :
    (ReconcileSecretBinding env b key w).2.store = w.store ∧
    ∀ o, Call.update o ∉ (ReconcileSecretBinding env b key w).2.callsSince w := by
  obtain ⟨k, hk⟩ := metaNamespaceKeyFunc_ok b
  rcases h with ⟨hdel, hfin⟩ | ⟨hdel, hfin, hres⟩ | ⟨hdel, hfin, err, hget, hne⟩ |
    ⟨hlive, hfin, err, hget⟩ | ⟨hlive, hfin, s, hget, hext⟩
  · have hhas : sets.Has (sets.NewString b.Finalizers) env.GardenerName = false := by
      cases h : sets.Has (sets.NewString b.Finalizers) env.GardenerName
      · rfl
      · exact absurd ((has_newString _ _).mp h) hfin
    have hR : ReconcileSecretBinding env b key w = (none, w) := by
      simp [ReconcileSecretBinding, hk, hdel, hhas]
    rw [hR]
    exact ⟨rfl, by simp [callsSince_self]⟩
  · exact reconcile_not_accepted_writes_nothing env b key w hdel hfin hres
  · by_cases hres : env.DetermineShootAssociations b = Except.ok []
    · rw [reconcile_ready_lookup_error env b key w err hdel hfin hres hget, if_neg hne]
      refine ⟨rfl, ?_⟩
      rw [callsSince_append _ w _ (record_calls w _)]
      simp
    · exact reconcile_not_accepted_writes_nothing env b key w hdel hfin hres
  · have hE : controllerutils.EnsureFinalizer env (Object.secretBinding b) env.GardenerName w
        = (none, w) := by
      rcases ensureFinalizer_cases env (Object.secretBinding b) env.GardenerName w with
        ⟨_, h⟩ | ⟨hn, _⟩
      · exact h
      · exact absurd hfin hn
    have hR : ReconcileSecretBinding env b key w = (some err, w) := by
      simp [ReconcileSecretBinding, hk, hlive, hE, hget]
    rw [hR]
    exact ⟨rfl, by simp [callsSince_self]⟩
  · have hE : controllerutils.EnsureFinalizer env (Object.secretBinding b) env.GardenerName w
        = (none, w) := by
      rcases ensureFinalizer_cases env (Object.secretBinding b) env.GardenerName w with
        ⟨_, h⟩ | ⟨hn, _⟩
      · exact h
      · exact absurd hfin hn
    have hE2 : controllerutils.EnsureFinalizer env (Object.secret s)
        env.ExternalGardenerName w = (none, w) := by
      rcases ensureFinalizer_cases env (Object.secret s) env.ExternalGardenerName w with
        ⟨_, h⟩ | ⟨hn, _⟩
      · exact h
      · exact absurd hext hn
    have hR : ReconcileSecretBinding env b key w = (none, w) := by
      simp [ReconcileSecretBinding, hk, hlive, hE, hget, hE2]
    rw [hR]
    exact ⟨rfl, by simp [callsSince_self]⟩

theorem getSecretBinding_some_key (st : Store) (ns name : String) (b : SecretBinding)
    (h : st.getSecretBinding ns name = some b) : b.Namespace = ns ∧ b.Name = name := by
  have hp := List.find?_some h
  simp only [Bool.and_eq_true, beq_iff_eq] at hp
  exact hp

/-- An update of a stored SecretBinding that meets no injected failure is
acknowledged, and the SecretBinding is then stored as written. -/
theorem update_secretBinding_succeeds (env : Env) (w : World) (ns name : String)
    (b b2 : SecretBinding)
    (hB : env.updateSecretBindingFault = none)
    (hb : w.store.getSecretBinding ns name = some b)
    (hns : b2.Namespace = b.Namespace) (hname : b2.Name = b.Name) :
    (Update env (Object.secretBinding b2) w).1 = none ∧
    (Update env (Object.secretBinding b2) w).2.store.getSecretBinding ns name = some b2 ∧
    (Update env (Object.secretBinding b2) w).2.store.secrets = w.store.secrets := by
  obtain ⟨h1, h2⟩ := getSecretBinding_some_key _ _ _ _ hb
  have hkey : w.store.getSecretBinding b2.Namespace b2.Name = some b := by
    rw [hns, hname, h1, h2]; exact hb
  have hres : updateResult env w.store (Object.secretBinding b2) = none :=
    updateResult_secretBinding_none env _ _ hB (by rw [hkey]; rfl)
  refine ⟨by rw [update_fst]; exact hres, ?_, update_secretBinding_secrets env _ _⟩
  rw [update_store, if_pos hres]
  have hp := getSecretBinding_putSecretBinding w.store b2
  rw [hkey] at hp
  rw [hns, hname, h1, h2] at hp
  exact hp

/-- An update of a Secret the lister has just returned, meeting no injected
failure, is acknowledged, and the lister then returns the Secret as written. -/
theorem update_secret_succeeds (env : Env) (w : World) (ns name : String) (s s2 : Secret)
    (hS : env.updateSecretFault = none)
    (hget : secretLister env w.store ns name = Except.ok s)
    (hns : s2.Namespace = s.Namespace) (hname : s2.Name = s.Name) :
    (Update env (Object.secret s2) w).1 = none ∧
    secretLister env (Update env (Object.secret s2) w).2.store ns name = Except.ok s2 ∧
    (Update env (Object.secret s2) w).2.store.secretBindings = w.store.secretBindings := by
  obtain ⟨hf, hst, h1, h2⟩ := secretLister_ok _ _ _ _ _ hget
  have hkey : w.store.getSecret s2.Namespace s2.Name = some s := by
    rw [hns, hname, h1, h2]; exact hst
  have hres : updateResult env w.store (Object.secret s2) = none :=
    updateResult_secret_none env _ _ hS (by rw [hkey]; rfl)
  refine ⟨by rw [update_fst]; exact hres, ?_, update_secret_secretBindings env _ _⟩
  rw [update_store, if_pos hres]
  have hp := getSecret_putSecret w.store s2
  rw [hkey] at hp
  rw [hns, hname, h1, h2] at hp
  simp only [secretLister, hf, Store.put, hp, Option.map_some']

/-- Ensuring a finalizer on a stored SecretBinding, with no injected failure,
succeeds and leaves it stored with the finalizer, its other fields kept. -/
theorem ensureFinalizer_secretBinding_succeeds (env : Env) (w : World) (ns name : String)
    (b : SecretBinding) (finalizer : String)
    (hB : env.updateSecretBindingFault = none)
    (hb : w.store.getSecretBinding ns name = some b) :
    (controllerutils.EnsureFinalizer env (Object.secretBinding b) finalizer w).1 = none ∧
    (controllerutils.EnsureFinalizer env (Object.secretBinding b) finalizer
      w).2.store.secrets = w.store.secrets ∧
    ∃ b1, (controllerutils.EnsureFinalizer env (Object.secretBinding b) finalizer
        w).2.store.getSecretBinding ns name = some b1 ∧
      b1.DeletionTimestamp = b.DeletionTimestamp ∧ b1.SecretRef = b.SecretRef ∧
      finalizer ∈ b1.Finalizers := by
  rcases ensureFinalizer_cases env (Object.secretBinding b) finalizer w with
    ⟨hin, h⟩ | ⟨_, h⟩
  · rw [h]
    exact ⟨rfl, rfl, b, hb, rfl, rfl, hin⟩
  · rw [h]
    obtain ⟨h1, h2, h3⟩ := update_secretBinding_succeeds env w ns name b
      { b with
        Finalizers := sets.UnsortedList
          (sets.Insert (sets.NewString b.Finalizers) finalizer) } hB hb rfl rfl
    exact ⟨h1, h3, _, h2, rfl, rfl, (mem_insert_newString _ _ _).mpr (Or.inr rfl)⟩

/-- Ensuring a finalizer on a Secret the lister has just returned, with no
injected failure, succeeds; the lister then returns it with the finalizer. -/
theorem ensureFinalizer_secret_succeeds (env : Env) (w : World) (ns name : String)
    (s : Secret) (finalizer : String)
    (hS : env.updateSecretFault = none)
    (hget : secretLister env w.store ns name = Except.ok s) :
    (controllerutils.EnsureFinalizer env (Object.secret s) finalizer w).1 = none ∧
    (controllerutils.EnsureFinalizer env (Object.secret s) finalizer
      w).2.store.secretBindings = w.store.secretBindings ∧
    ∃ s1, secretLister env (controllerutils.EnsureFinalizer env (Object.secret s) finalizer
        w).2.store ns name = Except.ok s1 ∧ finalizer ∈ s1.Finalizers := by
  rcases ensureFinalizer_cases env (Object.secret s) finalizer w with ⟨hin, h⟩ | ⟨_, h⟩
  · rw [h]
    exact ⟨rfl, rfl, s, hget, hin⟩
  · rw [h]
    obtain ⟨h1, h2, h3⟩ := update_secret_succeeds env w ns name s
      { s with
        Finalizers := sets.UnsortedList
          (sets.Insert (sets.NewString s.Finalizers) finalizer) } hS hget rfl rfl
    exact ⟨h1, h3, _, h2, (mem_insert_newString _ _ _).mpr (Or.inr rfl)⟩

/-- After one reconciliation of a stored SecretBinding in which no update meets an
injected failure, the SecretBinding stored under the same key is settled. -/
theorem reconcile_settles (env : Env) (b : SecretBinding) (key : String) (w : World)
    (ns name : String)
    (hS : env.updateSecretFault = none)
    (hB : env.updateSecretBindingFault = none)
    (hb : w.store.getSecretBinding ns name = some b) :
    ∃ b1, (ReconcileSecretBinding env b key w).2.store.getSecretBinding ns name = some b1 ∧
      Settled env (ReconcileSecretBinding env b key w).2.store b1 := by
  obtain ⟨k, hk⟩ := metaNamespaceKeyFunc_ok b
  by_cases hdel : b.DeletionTimestamp = none
  · -- the path of a live binding
    obtain ⟨hE1, hsec, b1, hb1, hd1, hr1, ht1⟩ :=
      ensureFinalizer_secretBinding_succeeds env w ns name b env.GardenerName hB hb
    cases hget : secretLister env (controllerutils.EnsureFinalizer env
        (Object.secretBinding b) env.GardenerName w).2.store b.SecretRef.Namespace
        b.SecretRef.Name with
    | error err =>
      have hR : (ReconcileSecretBinding env b key w).2 =
          (controllerutils.EnsureFinalizer env (Object.secretBinding b)
            env.GardenerName w).2 := by
        simp [ReconcileSecretBinding, hk, hdel, hE1, hget]
      rw [hR]
      refine ⟨b1, hb1, Or.inr (Or.inr (Or.inr (Or.inl ⟨hd1.trans hdel, ht1, err, ?_⟩)))⟩
      rw [hr1]; exact hget
    | ok secret =>
      obtain ⟨hE2, hbind, s1, hs1, hx1⟩ :=
        ensureFinalizer_secret_succeeds env _ _ _ secret env.ExternalGardenerName hS hget
      have hR : (ReconcileSecretBinding env b key w).2 =
          (controllerutils.EnsureFinalizer env (Object.secret secret)
            env.ExternalGardenerName
            (controllerutils.EnsureFinalizer env (Object.secretBinding b)
              env.GardenerName w).2).2 := by
        simp [ReconcileSecretBinding, hk, hdel, hE1, hget, hE2]
      rw [hR]
      refine ⟨b1, ?_, Or.inr (Or.inr (Or.inr (Or.inr ⟨hd1.trans hdel, ht1, s1, ?_, hx1⟩)))⟩
      · rw [getSecretBinding_congr _ _ hbind]; exact hb1
      · rw [hr1]; exact hs1
  · by_cases hfin : env.GardenerName ∈ b.Finalizers
    · by_cases hres : env.DetermineShootAssociations b = Except.ok []
      · -- the accepted deletion
        have hgone : env.GardenerName ∉ sets.UnsortedList
            (sets.Delete (sets.NewString b.Finalizers) env.GardenerName) :=
          fun h => ((mem_delete_newString _ _ _).mp h).2 rfl
        cases hget : secretLister env w.store b.SecretRef.Namespace b.SecretRef.Name with
        | error err =>
          rw [reconcile_ready_lookup_error env b key w err hdel hfin hres hget]
          by_cases hnf : err = Error.notFound
          · rw [if_pos hnf]
            obtain ⟨_, h2, _⟩ := update_secretBinding_succeeds env
              (w.record (Call.determineShootAssociations b)) ns name b
              { b with
                Finalizers := sets.UnsortedList
                  (sets.Delete (sets.NewString b.Finalizers) env.GardenerName) }
              hB hb rfl rfl
            exact ⟨_, h2, Or.inl ⟨hdel, hgone⟩⟩
          · rw [if_neg hnf]
            exact ⟨b, hb, Or.inr (Or.inr (Or.inl ⟨hdel, hfin, err, hget, hnf⟩))⟩
        | ok secret =>
          rw [reconcile_ready_lookup_ok env b key w secret hdel hfin hres hget]
          obtain ⟨hu1, _, hu3⟩ := update_secret_succeeds env
            (w.record (Call.determineShootAssociations b)) b.SecretRef.Namespace
            b.SecretRef.Name secret
            { secret with
              Finalizers := sets.UnsortedList
                (sets.Delete (sets.NewString secret.Finalizers) env.ExternalGardenerName) }
            hS hget rfl rfl
          have hi : client.IgnoreNotFound none = none := rfl
          rw [hu1, if_pos hi]
          have hb2 : (Update env (Object.secret { secret with
              Finalizers := sets.UnsortedList
                (sets.Delete (sets.NewString secret.Finalizers) env.ExternalGardenerName) })
              (w.record (Call.determineShootAssociations b))).2.store.getSecretBinding ns name
              = some b := by
            rw [getSecretBinding_congr _ _ hu3]; exact hb
          obtain ⟨_, h2, _⟩ := update_secretBinding_succeeds env _ ns name b
            { b with
              Finalizers := sets.UnsortedList
                (sets.Delete (sets.NewString b.Finalizers) env.GardenerName) }
            hB hb2 rfl rfl
          exact ⟨_, h2, Or.inl ⟨hdel, hgone⟩⟩
      · -- the blocked deletion
        rw [(reconcile_not_accepted_writes_nothing env b key w hdel hfin hres).1]
        exact ⟨b, hb, Or.inr (Or.inl ⟨hdel, hfin, hres⟩)⟩
    · -- the released binding
      have hhas : sets.Has (sets.NewString b.Finalizers) env.GardenerName = false := by
        cases h : sets.Has (sets.NewString b.Finalizers) env.GardenerName
        · rfl
        · exact absurd ((has_newString _ _).mp h) hfin
      have hR : ReconcileSecretBinding env b key w = (none, w) := by
        simp [ReconcileSecretBinding, hk, hdel, hhas]
      rw [hR]
      exact ⟨b, hb, Or.inl ⟨hdel, hfin⟩⟩

/-- With the SecretBinding found under the key, the world after
`reconcileSecretBindingKey` is the world `ReconcileSecretBinding` leaves. -/
theorem reconcileKey_found (env : Env) (key : String) (c : Controller) (ns name : String)
    (b : SecretBinding)
    (hkey : cache.SplitMetaNamespaceKey key = Except.ok (ns, name))
    (hf : env.secretBindingListerFault = none)
    (hb : c.world.store.getSecretBinding ns name = some b) :
    (reconcileSecretBindingKey env (NewDefaultControl env) key c).2.world
      = (ReconcileSecretBinding env b key c.world).2 := by
  have hget : secretBindingLister env c.world.store ns name = Except.ok b := by
    simp [secretBindingLister, hf, hb]
  simp only [reconcileSecretBindingKey, hkey, hget, NewDefaultControl]
  split <;> rfl

/-- With no SecretBinding stored under the key, `reconcileSecretBindingKey` leaves
the world alone. -/
theorem reconcileKey_absent (env : Env) (key : String) (c : Controller) (ns name : String)
    (hkey : cache.SplitMetaNamespaceKey key = Except.ok (ns, name))
    (hb : c.world.store.getSecretBinding ns name = none) :
    (reconcileSecretBindingKey env (NewDefaultControl env) key c).2.world = c.world := by
  have hget : ∃ err, secretBindingLister env c.world.store ns name = Except.error err := by
    unfold secretBindingLister
    split
    · exact ⟨_, rfl⟩
    · rw [hb]; exact ⟨_, rfl⟩
  obtain ⟨err, hget⟩ := hget
  simp only [reconcileSecretBindingKey, hkey, hget]
  split <;> rfl

/-- What `reconcileSecretBindingKey` does to the world: nothing, or what
`ReconcileSecretBinding` does for the SecretBinding stored under the key. -/
theorem reconcileKey_world (env : Env) (key : String) (c : Controller) :
    (reconcileSecretBindingKey env (NewDefaultControl env) key c).2.world = c.world ∨
    ∃ ns name b, cache.SplitMetaNamespaceKey key = Except.ok (ns, name) ∧
      env.secretBindingListerFault = none ∧
      c.world.store.getSecretBinding ns name = some b ∧
      (reconcileSecretBindingKey env (NewDefaultControl env) key c).2.world
        = (ReconcileSecretBinding env b key c.world).2 := by
  cases hkey : cache.SplitMetaNamespaceKey key with
  | error err =>
    left
    simp only [reconcileSecretBindingKey, hkey]
  | ok p =>
    obtain ⟨ns, name⟩ := p
    cases hf : env.secretBindingListerFault with
    | some err =>
      left
      have hget : secretBindingLister env c.world.store ns name = Except.error err := by
        simp [secretBindingLister, hf]
      simp only [reconcileSecretBindingKey, hkey, hget]
      split <;> rfl
    | none =>
      cases hb : c.world.store.getSecretBinding ns name with
      | none => left; exact reconcileKey_absent env key c ns name hkey hb
      | some b =>
        right
        exact ⟨ns, name, b, rfl, rfl, hb, reconcileKey_found env key c ns name b hkey hf hb⟩

/-- C11: when the same key is reconciled twice in a row and no update meets an
injected failure, the second run of `reconcileSecretBindingKey` leaves the store
as the first run left it and issues no update call. -/
theorem reconcileKey_twice_second_writes_nothing (env : Env) (key : String)
    (c : Controller)
    (hS : env.updateSecretFault = none)
    (hB : env.updateSecretBindingFault = none) :
    (reconcileSecretBindingKey env (NewDefaultControl env) key
        (reconcileSecretBindingKey env (NewDefaultControl env) key c).2).2.world.store
      = (reconcileSecretBindingKey env (NewDefaultControl env) key c).2.world.store ∧
    ∀ o, Call.update o ∉
      (reconcileSecretBindingKey env (NewDefaultControl env) key
        (reconcileSecretBindingKey env (NewDefaultControl env) key c).2).2.world.callsSince
        (reconcileSecretBindingKey env (NewDefaultControl env) key c).2.world := by
  rcases reconcileKey_world env key
      (reconcileSecretBindingKey env (NewDefaultControl env) key c).2 with
    h2 | ⟨ns, name, b1, hkey, hf, hb1, h2⟩
  · rw [h2]
    exact ⟨rfl, by simp [callsSince_self]⟩
  · rw [h2]
    apply settled_writes_nothing
    cases hb : c.world.store.getSecretBinding ns name with
    | none =>
      rw [reconcileKey_absent env key c ns name hkey hb, hb] at hb1
      cases hb1
    | some b =>
      have h1 := reconcileKey_found env key c ns name b hkey hf hb
      rw [h1] at hb1 ⊢
      obtain ⟨b2, hb2, hset⟩ := reconcile_settles env b key c.world ns name hS hB hb
      rw [hb1] at hb2
      cases hb2
      exact hset

/-- Witness for C11: the first reconciliation of `garden/b4` writes the
SecretBinding and the Secret, the second one writes nothing. -/
theorem reconcileKey_twice_second_writes_nothing_witness :
    (reconcileSecretBindingKey exEnv (NewDefaultControl exEnv) "garden/b4"
      exControllerFresh).2.world.calls =
      [Call.update (Object.secretBinding { exFresh with Finalizers := ["gardener"] }),
       Call.update (Object.secret { exPlain with Finalizers := ["gardener.cloud/gardener"] })] ∧
    (reconcileSecretBindingKey exEnv (NewDefaultControl exEnv) "garden/b4"
        (reconcileSecretBindingKey exEnv (NewDefaultControl exEnv) "garden/b4"
          exControllerFresh).2).2.world.store
      = (reconcileSecretBindingKey exEnv (NewDefaultControl exEnv) "garden/b4"
          exControllerFresh).2.world.store ∧
    ∀ o, Call.update o ∉
      (reconcileSecretBindingKey exEnv (NewDefaultControl exEnv) "garden/b4"
        (reconcileSecretBindingKey exEnv (NewDefaultControl exEnv) "garden/b4"
          exControllerFresh).2).2.world.callsSince
        (reconcileSecretBindingKey exEnv (NewDefaultControl exEnv) "garden/b4"
          exControllerFresh).2.world :=
  ⟨rfl, reconcileKey_twice_second_writes_nothing exEnv "garden/b4" exControllerFresh rfl rfl⟩

end SecretBindingControl
